import Mathlib

/-!
Verification of the CSV transaction parser and recurring-payment detector of
the finance dashboard (source: `src/lib/csv-parser.ts`).

Modelling conventions, used throughout:

* JS strings are modelled as `List Char` (the inputs of interest are ASCII,
  where UTF-16 code units and Unicode scalars coincide).
* JS numbers are modelled as exact rationals `ℚ`.  The amounts handled by the
  program are short decimal literals, and none of the comparisons performed by
  the program are close enough to a binary-rounding boundary for IEEE-754
  rounding to change a branch.  `NaN` (produced by `parseFloat` on
  non-numeric text) is modelled by `Option ℚ` at the production site; the
  only arithmetic edge case where JS would produce `Infinity`/`NaN` inside
  the detector (an average of exactly 0) is modelled explicitly where it
  occurs.  Mathlib marks `Rat.add`/`Rat.mul`/... irreducible, which blocks
  kernel evaluation, so arithmetic is done through reducible wrappers
  (`qadd` etc.) built on `Rat.divInt`; they are definitionally computable and
  provably equal to the field operations.
* JS `Date` objects constructed by `new Date(year, monthIndex, day)` are
  modelled by their day number relative to the Unix epoch (`Int`).  The
  source never uses a time-of-day component, so `getTime()` is day · 86400000
  (this fixes a timezone-offset-free clock; daylight-saving shifts of the
  host are environmental and not modelled).  The JS `Date` constructor
  normalizes out-of-range fields by calendar rollover and maps years 0..99 to
  1900..1999; both behaviours are reproduced (`jsMkDate`).
* JS `Array.prototype.sort` with a numeric comparator is the stable sort of
  the list with respect to the induced total preorder; the stable sort for a
  total preorder is unique, so it is modelled by insertion sort (`sortByB`).
* The JS `Set` of string keys built by the detector is modelled as a list of
  keys with membership lookup, and the interpolated key strings
  `time-amount-description` and `words|roundedAmount` are modelled as tuples:
  the numeric renderings contain no dash (times and amounts of parsed
  transactions are non-negative) and no bar, and the last separator
  disambiguates, so the string keys and the tuples identify the same pairs.
* `crypto.randomUUID()` and the vendor/category enrichment helpers
  (`extractVendor`, `detectCategory`) are injected as parameters of
  `parseCSVL`: no claim depends on the value of `id`, `vendor` or `category`,
  and the theorems below quantify over every possible enrichment, which only
  strengthens them.
-/

namespace FinDash

/-! ## Character and string helpers (JS primitive semantics) -/

/-- Whitespace class of JS regexes and of `String.prototype.trim` (ASCII part:
space, tab, line feed, carriage return, vertical tab, form feed). -/
def jsIsSpace (c : Char) : Bool :=
  c = ' ' || c = '\t' || c = '\n' || c = '\r' || c.toNat = 11 || c.toNat = 12

/-- JS word character for the regex `\b` boundary and `\w`: ASCII letter,
digit or underscore. -/
def isWordC (c : Char) : Bool :=
  c.isAlpha || c.isDigit || c = '_'

/-- Word-character test on an optional preceding character; `none` stands for
the start of the string (a position with no preceding character). -/
def isWordO : Option Char → Bool
  | none => false
  | some c => isWordC c

/-- Uppercase ASCII letter (the class `[A-Z]` of the source regexes). -/
def isUpperC (c : Char) : Bool :=
  'A' ≤ c && c ≤ 'Z'

/-- Lowercase ASCII letter (the class `[a-z]`; the source always pairs it with
the `i` flag, so it is used together with `Char.isAlpha`). -/
def isLowerC (c : Char) : Bool :=
  'a' ≤ c && c ≤ 'z'

/-- JS `String.prototype.toLowerCase` restricted to ASCII (all inputs of
interest are ASCII). -/
def toLowerL (s : List Char) : List Char :=
  s.map Char.toLower

/-- JS `String.prototype.trim` (strip leading and trailing whitespace). -/
def trimL (s : List Char) : List Char :=
  ((s.dropWhile jsIsSpace).reverse.dropWhile jsIsSpace).reverse

/-- JS `String.prototype.includes`: contiguous-substring test. -/
def isSubstr (pat : List Char) : List Char → Bool
  | [] => pat.isEmpty
  | c :: rest => pat.isPrefixOf (c :: rest) || isSubstr pat rest

/-- JS `String.prototype.split` on a single separator character (keeps empty
fields; the empty string yields one empty field). -/
def splitOnC (sep : Char) : List Char → List (List Char)
  | [] => [[]]
  | c :: rest =>
    match splitOnC sep rest with
    | [] => [[c]]
    | h :: t => if c = sep then [] :: h :: t else (c :: h) :: t

/-- Join a list of strings with a single-character separator
(JS `Array.prototype.join`). -/
def joinSep (sep : Char) : List (List Char) → List Char
  | [] => []
  | [x] => x
  | x :: y :: rest => x ++ sep :: joinSep sep (y :: rest)

/-- Numeric value of a digit character. -/
def digitVal (c : Char) : Nat :=
  c.toNat - 48

/-- Value of a string of decimal digits (`parseInt` on the all-digit capture
groups of the source regexes). -/
def digitsToNat (l : List Char) : Nat :=
  l.foldl (fun acc c => 10 * acc + digitVal c) 0

/-- Index access `fields[i]` followed by `|| ""`: a JS out-of-range or
negative index yields `undefined`, which the source coalesces to the empty
string (an empty field coalesces to itself). -/
def jsAt (fields : List (List Char)) (i : Int) : List Char :=
  if 0 ≤ i then fields.getD i.toNat [] else []

/-- JS `Array.prototype.findIndex`: the index of the first match, `-1` when
there is none. -/
def findIdxInt (p : List Char → Bool) (l : List (List Char)) : Int :=
  match l.findIdx? p with
  | some n => (n : Int)
  | none => -1

/-! ## Exact-rational arithmetic wrappers

Kernel-reducible versions of the `ℚ` field operations (Mathlib marks
`Rat.add` and friends irreducible, which would block `decide`).  Each is the
standard cross-multiplication formula normalized by `Rat.divInt`. -/

/-- Addition on `ℚ`, kernel-reducible. -/
def qadd (a b : ℚ) : ℚ :=
  Rat.divInt (a.num * (b.den : Int) + b.num * (a.den : Int)) ((a.den : Int) * (b.den : Int))

/-- Subtraction on `ℚ`, kernel-reducible. -/
def qsub (a b : ℚ) : ℚ :=
  Rat.divInt (a.num * (b.den : Int) - b.num * (a.den : Int)) ((a.den : Int) * (b.den : Int))

/-- Multiplication on `ℚ`, kernel-reducible. -/
def qmul (a b : ℚ) : ℚ :=
  Rat.divInt (a.num * b.num) ((a.den : Int) * (b.den : Int))

/-- Division on `ℚ`, kernel-reducible; division by zero gives `0` (the one
place where the source divides by a possibly-zero number is modelled
explicitly at that site). -/
def qdiv (a b : ℚ) : ℚ :=
  Rat.divInt (a.num * (b.den : Int)) ((a.den : Int) * b.num)

/-- Absolute value on `ℚ`, kernel-reducible (JS `Math.abs`). -/
def qabs (a : ℚ) : ℚ :=
  if a.num < 0 then Rat.divInt (-a.num) (a.den : Int) else a

/-- Embedding of `Int` into `ℚ`, kernel-reducible. -/
def qfromInt (n : Int) : ℚ :=
  Rat.divInt n 1

/-- JS `Math.round`: round half toward positive infinity. -/
def jsRound (q : ℚ) : Int :=
  Rat.floor (qadd q (qdiv 1 2))

/-! ## JS `Date` model

A `Date` produced by `new Date(y, m, d)` is represented by its day number
relative to 1970-01-01 (the proleptic Gregorian civil calendar).  The
conversion functions are the standard era-based civil-calendar algorithms. -/

/-- Day number of the civil date `(y, m, d)` with month `m` in `1..12`; the
day `d` may be out of range, in which case the date rolls over (the formula
is affine in `d`). -/
def daysFromCivil (y m d : Int) : Int :=
  let yy := if m ≤ 2 then y - 1 else y
  let era := yy / 400
  let yoe := yy - era * 400
  let mp := if 2 < m then m - 3 else m + 9
  let doy := (153 * mp + 2) / 5 + d - 1
  let doe := yoe * 365 + yoe / 4 - yoe / 100 + doy
  era * 146097 + doe - 719468

/-- Civil date `(year, month 1..12, day 1..31)` of a day number. -/
def civilFromDays (z : Int) : Int × Int × Int :=
  let z2 := z + 719468
  let era := z2 / 146097
  let doe := z2 - era * 146097
  let yoe := (doe - doe / 1460 + doe / 36524 - doe / 146096) / 365
  let y := yoe + era * 400
  let doy := doe - (365 * yoe + yoe / 4 - yoe / 100)
  let mp := (5 * doy + 2) / 153
  let d := doy - (153 * mp + 2) / 5 + 1
  let m := if mp < 10 then mp + 3 else mp - 9
  (if m ≤ 2 then y + 1 else y, m, d)

/-- JS `new Date(year, monthIndex, day)` at local midnight: years `0..99` map
to `1900..1999`, and out-of-range month indexes and days roll over. -/
def jsMkDate (year monthIdx day : Int) : Int :=
  let y := if 0 ≤ year ∧ year ≤ 99 then year + 1900 else year
  let ym := y + monthIdx / 12
  let mi := monthIdx % 12
  daysFromCivil ym (mi + 1) day

/-- JS `Date.prototype.getFullYear`. -/
def jsGetFullYear (t : Int) : Int :=
  (civilFromDays t).1

/-- JS `Date.prototype.getMonth` (0-based month). -/
def jsGetMonth (t : Int) : Int :=
  (civilFromDays t).2.1 - 1

/-- JS `Date.prototype.getDate` (day of month). -/
def jsGetDate (t : Int) : Int :=
  (civilFromDays t).2.2

/-- JS `Date.prototype.getTime` in milliseconds (dates are local midnights
on a fixed-offset clock, see the header). -/
def jsGetTime (t : Int) : Int :=
  t * 86400000

/-- JS `Date` range check: `getTime()` is `NaN` exactly outside
±8.64e15 ms, i.e. ±100000000 days (`isNaN(date.getTime())` in the source). -/
def jsDateValid (t : Int) : Bool :=
  -100000000 ≤ t && t ≤ 100000000

/-! ## JS `parseFloat` -/

/-- JS `parseFloat` (also `Number.parseFloat`): skip leading whitespace, then
an optional sign, decimal digits with an optional fraction and an optional
exponent; trailing garbage is ignored.  Returns `none` for `NaN` (no digits).
The `Infinity` literal is not modelled (no claim involves it, and no CSV
field of interest spells it). -/
def parseFloatQ (s : List Char) : Option ℚ :=
  let s1 := s.dropWhile jsIsSpace
  let sgnPos : Bool :=
    match s1 with
    | '-' :: _ => false
    | _ => true
  let s2 : List Char :=
    match s1 with
    | '-' :: r => r
    | '+' :: r => r
    | _ => s1
  let ip := s2.takeWhile Char.isDigit
  let s3 := s2.dropWhile Char.isDigit
  let fp : List Char :=
    match s3 with
    | '.' :: r => r.takeWhile Char.isDigit
    | _ => []
  let s4 : List Char :=
    match s3 with
    | '.' :: r => r.dropWhile Char.isDigit
    | _ => s3
  if ip.isEmpty && fp.isEmpty then none
  else
    let mant : ℚ :=
      Rat.divInt (Int.ofNat (digitsToNat (ip ++ fp))) (Int.ofNat (10 ^ fp.length))
    let m2 : ℚ := if sgnPos then mant else qsub 0 mant
    let eDigits : List Char :=
      match s4 with
      | 'e' :: '-' :: r2 => r2.takeWhile Char.isDigit
      | 'e' :: '+' :: r2 => r2.takeWhile Char.isDigit
      | 'e' :: r => r.takeWhile Char.isDigit
      | 'E' :: '-' :: r2 => r2.takeWhile Char.isDigit
      | 'E' :: '+' :: r2 => r2.takeWhile Char.isDigit
      | 'E' :: r => r.takeWhile Char.isDigit
      | _ => []
    let eNeg : Bool :=
      match s4 with
      | 'e' :: '-' :: _ => true
      | 'E' :: '-' :: _ => true
      | _ => false
    if eDigits.isEmpty then some m2
    else
      let p : ℚ := Rat.divInt (Int.ofNat (10 ^ digitsToNat eDigits)) 1
      some (if eNeg then qdiv m2 p else qmul m2 p)

/-! ## Date-pattern matchers (the regexes of `parseDate`)

Each matcher is the deterministic equivalent of the source regex: the
quantifiers are greedy, and because every adjacent pair of sub-patterns draws
from disjoint character classes, greedy maximal-munch with the single
required-successor check is exactly the backtracking semantics. -/

/-- Greedy match of `\d⁠{1,2}` at the head: one or two digits, two when the
second character is also a digit. -/
def take2Digits : List Char → Option (Nat × List Char)
  | [] => none
  | [c1] => if c1.isDigit then some (digitVal c1, []) else none
  | c1 :: c2 :: r =>
    if c1.isDigit then
      if c2.isDigit then some (10 * digitVal c1 + digitVal c2, r)
      else some (digitVal c1, c2 :: r)
    else none

/-- Matcher for `^(\d⁠{4})-(\d⁠{1,2})-(\d⁠{1,2})` (the ISO branch of
`parseDate`); returns the three captured numbers.  Trailing text is
unconstrained (the regex has no end anchor). -/
def matchISO : List Char → Option (Nat × Nat × Nat)
  | y1 :: y2 :: y3 :: y4 :: '-' :: rest =>
    if y1.isDigit && y2.isDigit && y3.isDigit && y4.isDigit then
      match take2Digits rest with
      | some (mo, rest2) =>
        match rest2 with
        | '-' :: rest3 =>
          match take2Digits rest3 with
          | some (d, _) => some (digitsToNat [y1, y2, y3, y4], mo, d)
          | none => none
        | _ => none
      | none => none
    else none
  | _ => none

/-- Matcher for `^(\d⁠{1,2})\/(\d⁠{1,2})\/(\d⁠{2,4})` (the month-first slash
branch of `parseDate`); returns `(first, second, year)`. -/
def matchSlash (s : List Char) : Option (Nat × Nat × Nat) :=
  match take2Digits s with
  | some (a, r1) =>
    match r1 with
    | '/' :: r2 =>
      match take2Digits r2 with
      | some (b, r3) =>
        match r3 with
        | '/' :: r4 =>
          let ys := (r4.takeWhile Char.isDigit).take 4
          if 2 ≤ ys.length then some (a, b, digitsToNat ys) else none
        | _ => none
      | none => none
    | _ => none
  | none => none

/-- Matcher for `^(\d⁠{1,2})\/(\d⁠{1,2})\/(\d⁠{4})` (the day-first slash branch
of `parseDate`, which requires a four-digit year). -/
def matchSlash4 (s : List Char) : Option (Nat × Nat × Nat) :=
  match take2Digits s with
  | some (a, r1) =>
    match r1 with
    | '/' :: r2 =>
      match take2Digits r2 with
      | some (b, r3) =>
        match r3 with
        | '/' :: r4 =>
          let ys := r4.takeWhile Char.isDigit
          if 4 ≤ ys.length then some (a, b, digitsToNat (ys.take 4)) else none
        | _ => none
      | none => none
    | _ => none
  | none => none

/-- Month-name table of `parseDate` (keys already lowercase, as the source
looks them up after `toLowerCase`). -/
def monthNames : List (List Char × Nat) :=
  [("jan".data, 0), ("jan.".data, 0), ("feb".data, 1), ("feb.".data, 1),
   ("mar".data, 2), ("mar.".data, 2), ("apr".data, 3), ("apr.".data, 3),
   ("may".data, 4), ("may.".data, 4), ("jun".data, 5), ("jun.".data, 5),
   ("jul".data, 6), ("jul.".data, 6), ("aug".data, 7), ("aug.".data, 7),
   ("sep".data, 8), ("sep.".data, 8), ("sept".data, 8), ("sept.".data, 8),
   ("oct".data, 9), ("oct.".data, 9), ("nov".data, 10), ("nov.".data, 10),
   ("dec".data, 11), ("dec.".data, 11)]

/-- Assoc-list lookup used for the month-name table. -/
def lookupMonth (k : List Char) : List (List Char × Nat) → Option Nat
  | [] => none
  | (k2, v) :: rest => if k2 = k then some v else lookupMonth k rest

/-- Matcher for `^(\d⁠{1,2})\s+(\w⁠{3,4}\.?)\s+(\d⁠{4})` (the spelled-month
branch of `parseDate`, `i` flag); returns day, the captured month token
(including a consumed dot) and year.  A maximal word-character run longer
than 4 makes every split fail, hence the length window check. -/
def matchMonthName (s : List Char) : Option (Nat × List Char × Nat) :=
  match take2Digits s with
  | none => none
  | some (dayN, r1) =>
    if (r1.takeWhile jsIsSpace).isEmpty then none
    else
      let r2 := r1.dropWhile jsIsSpace
      let wrun := r2.takeWhile isWordC
      if wrun.length < 3 || 5 ≤ wrun.length then none
      else
        let r3 := r2.drop wrun.length
        match r3 with
        | '.' :: r4 =>
          if (r4.takeWhile jsIsSpace).isEmpty then none
          else
            let r5 := r4.dropWhile jsIsSpace
            let ys := r5.takeWhile Char.isDigit
            if 4 ≤ ys.length then some (dayN, wrun ++ ['.'], digitsToNat (ys.take 4))
            else none
        | _ =>
          if (r3.takeWhile jsIsSpace).isEmpty then none
          else
            let r5 := r3.dropWhile jsIsSpace
            let ys := r5.takeWhile Char.isDigit
            if 4 ≤ ys.length then some (dayN, wrun, digitsToNat (ys.take 4))
            else none

/-- Matcher for `^\d⁠{1,2}\s+\w⁠{3,4}\.?\s+\d⁠{4}$` (the fully anchored
"description is a date" safety check of the parsers): as `matchMonthName`
but the year digits must be exactly four and end the string. -/
def descFullDateMatch (s : List Char) : Bool :=
  match take2Digits s with
  | none => false
  | some (_, r1) =>
    if (r1.takeWhile jsIsSpace).isEmpty then false
    else
      let r2 := r1.dropWhile jsIsSpace
      let wrun := r2.takeWhile isWordC
      if wrun.length < 3 || 5 ≤ wrun.length then false
      else
        let r3 := r2.drop wrun.length
        let afterDot : List Char :=
          match r3 with
          | '.' :: r4 => r4
          | _ => r3
        if (afterDot.takeWhile jsIsSpace).isEmpty then false
        else
          let r5 := afterDot.dropWhile jsIsSpace
          let ys := r5.takeWhile Char.isDigit
          ys.length = 4 && (r5.drop 4).isEmpty

/-- Embedding of `parseDate` (`src/lib/csv-parser.ts`): try the ISO,
month-first slash, day-first slash and spelled-month patterns in order; a
matched pattern builds `new Date(year, month, day)` (with rollover) and is
returned when its time value is not `NaN`, otherwise the next pattern is
tried; `null` (here `none`) when nothing matches. -/
def parseDateL (s : List Char) : Option Int :=
  let t := trimL s
  if t.isEmpty then none
  else
    let tryISO : Option Int :=
      match matchISO t with
      | some (y, mo, d) =>
        let dt := jsMkDate (y : Int) ((mo : Int) - 1) (d : Int)
        if jsDateValid dt then some dt else none
      | none => none
    match tryISO with
    | some dt => some dt
    | none =>
      let trySlash : Option Int :=
        match matchSlash t with
        | some (mo, d, y) =>
          let y2 : Int := if y < 100 then (y : Int) + 2000 else (y : Int)
          let dt := jsMkDate y2 ((mo : Int) - 1) (d : Int)
          if jsDateValid dt then some dt else none
        | none => none
      match trySlash with
      | some dt => some dt
      | none =>
        let tryDdMm : Option Int :=
          match matchSlash4 t with
          | some (d, mo, y) =>
            let dt := jsMkDate (y : Int) ((mo : Int) - 1) (d : Int)
            if jsDateValid dt then some dt else none
          | none => none
        match tryDdMm with
        | some dt => some dt
        | none =>
          match matchMonthName t with
          | some (d, tok, y) =>
            match lookupMonth (toLowerL tok) monthNames with
            | some mo =>
              let dt := jsMkDate (y : Int) (mo : Int) (d : Int)
              if jsDateValid dt then some dt else none
            | none => none
          | none => none

/-! ## CSV line tokenizer -/

/-- Loop of `parseCSVLine`: walk the characters with the in-quotes flag, the
current field and the accumulated fields; a doubled quote inside a quoted
span emits one literal quote and skips both characters. -/
def parseCSVLineAux : List Char → Bool → List Char → List (List Char) → List (List Char)
  | [], _, cur, fs => fs ++ [cur]
  | '"' :: '"' :: rest, true, cur, fs => parseCSVLineAux rest true (cur ++ ['"']) fs
  | '"' :: rest, inQ, cur, fs => parseCSVLineAux rest (!inQ) cur fs
  | ',' :: rest, false, cur, fs => parseCSVLineAux rest false [] (fs ++ [cur])
  | c :: rest, inQ, cur, fs => parseCSVLineAux rest inQ (cur ++ [c]) fs

/-- Embedding of `parseCSVLine` (`src/lib/csv-parser.ts`): split a line into
fields on commas outside double-quoted spans, `""` inside a quoted span being
an escaped literal quote. -/
def parseCSVLineL (line : List Char) : List (List Char) :=
  parseCSVLineAux line false [] []

/-! ## Transaction data model (`src/lib/types.ts`) -/

/-- Direction of a transaction (`"debit" | "credit"`). -/
inductive TxType where
  | debit : TxType
  | credit : TxType
deriving DecidableEq

/-- Subscription frequency (`"monthly" | "annual"`). -/
inductive SubFreq where
  | monthly : SubFreq
  | annual : SubFreq
deriving DecidableEq

/-- Internal parsed-transaction record of the parser
(`interface ParsedTransaction`). -/
structure ParsedTx where
  date : Int
  amount : ℚ
  description : List Char
  type : TxType
deriving DecidableEq

/-- Ledger transaction (`interface Transaction`); an absent optional
`subscriptionFrequency` is `none`. -/
structure Tx where
  id : String
  date : Int
  description : List Char
  amount : ℚ
  vendor : List Char
  category : List Char
  isSubscription : Bool
  subscriptionFrequency : Option SubFreq
  type : TxType
deriving DecidableEq

/-! ## Format parsers -/

/-- Per-line body of `parseFormat1` (8-column layout
`Name,Card,TransactionDate,PostingDate,Description,Currency,Debit,Credit`);
`none` models `continue`. -/
def parseFormat1Line (line : List Char) : Option ParsedTx :=
  match parseCSVLineL line with
  | _name :: _card :: transDateStr :: postDateStr :: description :: _currency :: debitStr :: creditStr :: _ =>
    let transactionDate := parseDateL transDateStr
    let postingDate := parseDateL postDateStr
    match (match transactionDate with | some d => some d | none => postingDate) with
    | none => none
    | some date =>
      let amountTy : Option ℚ × TxType :=
        if !debitStr.isEmpty && !(trimL debitStr).isEmpty then
          (parseFloatQ debitStr, TxType.debit)
        else if !creditStr.isEmpty && !(trimL creditStr).isEmpty then
          (parseFloatQ creditStr, TxType.credit)
        else (some 0, TxType.debit)
      match amountTy.1 with
      | none => none
      | some amount =>
        if amount = 0 then none
        else
          let cleanDescription := trimL description
          if cleanDescription.length < 2 then none
          else some ⟨date, qabs amount, cleanDescription, amountTy.2⟩
  | _ => none

/-- Embedding of `parseFormat1` (`src/lib/csv-parser.ts`). -/
def parseFormat1 (lines : List (List Char)) : List ParsedTx :=
  lines.filterMap parseFormat1Line

/-- Per-line body of `parseFormat2` (`Posted Date,Payee,Address,Amount`). -/
def parseFormat2Line (line : List Char) : Option ParsedTx :=
  match parseCSVLineL line with
  | dateStr :: payee :: address :: amountStr :: _ =>
    match parseDateL dateStr with
    | none => none
    | some date =>
      match parseFloatQ amountStr with
      | none => none
      | some amount =>
        if amount = 0 then none
        else
          let ty := if amount < 0 then TxType.debit else TxType.credit
          let d1 := trimL payee
          let description :=
            if !address.isEmpty && !(trimL address).isEmpty && trimL address ≠ [' '] then
              trimL (d1 ++ ' ' :: trimL address)
            else d1
          if description.length < 2 then none
          else some ⟨date, qabs amount, description, ty⟩
  | _ => none

/-- Embedding of `parseFormat2` (`src/lib/csv-parser.ts`): skip the header
row, then parse each line. -/
def parseFormat2 (lines : List (List Char)) : List ParsedTx :=
  (lines.drop 1).filterMap parseFormat2Line

/-- Header test of `parseFormat3`: the line mentions "date", "description"
and "amount" (case-insensitively). -/
def fmt3IsHeader (line : List Char) : Bool :=
  let lower := toLowerL line
  isSubstr "date".data lower && isSubstr "description".data lower && isSubstr "amount".data lower

/-- Maximum of three column indexes (JS `Math.max` on integers). -/
def imax3 (a b c : Int) : Int :=
  let m1 := if a ≤ b then b else a
  if m1 ≤ c then c else m1

/-- Data-row body of `parseFormat3` for resolved column indexes. -/
def parseFormat3Row (dateIndex descIndex amountIndex : Int) (line : List Char) : Option ParsedTx :=
  let fields := parseCSVLineL line
  if (fields.length : Int) < imax3 dateIndex descIndex amountIndex + 1 then none
  else
    let dateStr := jsAt fields dateIndex
    let description := jsAt fields descIndex
    let amountStr := jsAt fields amountIndex
    let descLower := toLowerL description
    if isSubstr "summary".data descLower || isSubstr "last billed".data descLower ||
        isSubstr "charges &".data descLower || isSubstr "payments &".data descLower then none
    else
      match parseDateL dateStr with
      | none => none
      | some date =>
        let cleanAmount := amountStr.filter (fun c => !(c = '$' || c = ','))
        match parseFloatQ cleanAmount with
        | none => none
        | some amount =>
          if amount = 0 then none
          else
            let ty := if 0 < amount then TxType.debit else TxType.credit
            let cleanDescription := trimL description
            if cleanDescription.length < 2 then none
            else if (parseDateL cleanDescription).isSome && descFullDateMatch cleanDescription then none
            else some ⟨date, qabs amount, cleanDescription, ty⟩

/-- Field pattern `^[\-]?\$?[\d,]+\.?\d⁠{0,2}$` used by the header-less
variant of the statement parser to spot an amount field. -/
def amtPatMatch (f : List Char) : Bool :=
  let r1 : List Char := match f with | '-' :: r => r | _ => f
  let r2 : List Char := match r1 with | '$' :: r => r | _ => r1
  let body := r2.takeWhile (fun c => c.isDigit || c = ',')
  if body.isEmpty then false
  else
    match r2.drop body.length with
    | [] => true
    | '.' :: r4 => r4.length ≤ 2 && r4.all Char.isDigit
    | _ => false

/-- Per-line body of `parseFormat3NoHeader`: date in field 0, then the first
field from the end matching the amount pattern; the description is
everything strictly between them. -/
def parseFormat3NoHeaderLine (line : List Char) : Option ParsedTx :=
  let fields := parseCSVLineL line
  if fields.length < 2 then none
  else
    match parseDateL (fields.headD []) with
    | none => none
    | some date =>
      match (List.range fields.length).reverse.find? (fun i => amtPatMatch (fields.getD i [])) with
      | none => none
      | some i =>
        let amountStr := fields.getD i []
        let description := trimL (joinSep ' ' ((fields.drop 1).take (i - 1)))
        let cleanAmount := amountStr.filter (fun c => !(c = '$' || c = ','))
        match parseFloatQ cleanAmount with
        | none => none
        | some amount =>
          if amount = 0 then none
          else
            let ty := if 0 < amount then TxType.debit else TxType.credit
            if description.length < 2 then none
            else if (parseDateL description).isSome && descFullDateMatch description then none
            else some ⟨date, qabs amount, description, ty⟩

/-- Embedding of `parseFormat3NoHeader` (`src/lib/csv-parser.ts`). -/
def parseFormat3NoHeader (lines : List (List Char)) : List ParsedTx :=
  lines.filterMap parseFormat3NoHeaderLine

/-- Embedding of `parseFormat3` (`src/lib/csv-parser.ts`): find the header
row, resolve the column indexes from it (`findIndex` gives `-1` on failure;
an "amount" column containing "foreign" is excluded), and parse the rows
after it; without a header row, fall back to `parseFormat3NoHeader`.  (The
source's `dateProcessedIndex` block has an empty body and is omitted.) -/
def parseFormat3 (lines : List (List Char)) : List ParsedTx :=
  match lines.findIdx? fmt3IsHeader with
  | none => parseFormat3NoHeader lines
  | some headerIndex =>
    let headerFields := parseCSVLineL (lines.getD headerIndex [])
    let dateIndex := findIdxInt (fun f => trimL (toLowerL f) = "date".data) headerFields
    let descIndex := findIdxInt (fun f => isSubstr "description".data (toLowerL f)) headerFields
    let amountIndex := findIdxInt
      (fun f => isSubstr "amount".data (toLowerL f) && !isSubstr "foreign".data (toLowerL f))
      headerFields
    (lines.drop (headerIndex + 1)).filterMap (parseFormat3Row dateIndex descIndex amountIndex)

/-- Per-line body of the generic fallback branch of `parseCSV` for resolved
column indexes. -/
def fallbackLine (dateIndex descIndex amountIndex : Int) (line : List Char) : Option ParsedTx :=
  if (trimL line).isEmpty then none
  else
    let cols := parseCSVLineL line
    let dateStr := jsAt cols dateIndex
    let description0 := jsAt cols descIndex
    let amountStr0 := if (jsAt cols amountIndex).isEmpty then "0".data else jsAt cols amountIndex
    let description :=
      if description0.isEmpty || (trimL description0).length < 2 then
        if dateIndex + 1 < (cols.length : Int) then jsAt cols (dateIndex + 1) else description0
      else description0
    let amountStr1 := trimL (amountStr0.filter (fun c => !(c = '$' || c = ',' || c = '(' || c = ')')))
    let amountStr2 :=
      if amountStr1.headD ' ' = '(' || amountStr1.getLastD ' ' = ')' then
        '-' :: amountStr1.filter (fun c => !(c = '(' || c = ')'))
      else amountStr1
    match parseFloatQ amountStr2 with
    | none => none
    | some amount =>
      if dateStr.isEmpty then none
      else
        match parseDateL dateStr with
        | none => none
        | some date =>
          if !jsDateValid date then none
          else
            let cleanDescription := trimL description
            if cleanDescription.length < 2 then none
            else if (parseDateL cleanDescription).isSome && descFullDateMatch cleanDescription then none
            else
              let ty := if amount < 0 then TxType.debit else TxType.credit
              some ⟨date, qabs amount, cleanDescription, ty⟩

/-- Generic fallback branch of `parseCSV`: optional header detection, column
index resolution by substring with defaults `(0, 1, 2)`, then per-line
parsing. -/
def parseFallback (lines : List (List Char)) : List ParsedTx :=
  let header := toLowerL (lines.headD [])
  let hasHeader := isSubstr "date".data header || isSubstr "amount".data header ||
    isSubstr "description".data header
  let dataLines := if hasHeader then lines.drop 1 else lines
  let idx : Int × Int × Int :=
    if hasHeader then
      let cols := (parseCSVLineL (lines.headD [])).map (fun c => trimL (toLowerL c))
      let di := findIdxInt (fun c => isSubstr "date".data c) cols
      let de := findIdxInt (fun c => isSubstr "description".data c || isSubstr "memo".data c ||
        isSubstr "name".data c) cols
      let ai := findIdxInt (fun c => isSubstr "amount".data c || isSubstr "debit".data c ||
        isSubstr "credit".data c) cols
      (if di = -1 then 0 else di, if de = -1 then 1 else de, if ai = -1 then 2 else ai)
    else (0, 1, 2)
  dataLines.filterMap (fallbackLine idx.1 idx.2.1 idx.2.2)

/-! ## Sorting (JS `Array.prototype.sort`)

JS sort with a numeric comparator is the stable sort for the total preorder
`cmp(a,b) ≤ 0`; the stable sort of a list for a total preorder is unique, so
it is modelled by insertion sort, which is stable. -/

/-- Insert an element into a sorted list, before the first element it
relates to (keeping it after earlier-inserted equivalents). -/
def insertLe {α : Type} (le : α → α → Bool) (a : α) : List α → List α
  | [] => [a]
  | b :: l => if le a b then a :: b :: l else b :: insertLe le a l

/-- Stable insertion sort by a boolean relation. -/
def sortByB {α : Type} (le : α → α → Bool) : List α → List α
  | [] => []
  | x :: xs => insertLe le x (sortByB le xs)

/-! ## `parseCSV`: dispatch and enrichment -/

/-- Enrichment map of `parseCSV` (its final `parsedTransactions.map`): build
a `Transaction` from each parsed record; `idGen` models the successive
`crypto.randomUUID()` calls and `ev`/`dc` the `extractVendor`/
`detectCategory` helpers (see the header note). -/
def enrichFrom (idGen : Nat → String) (ev dc : List Char → List Char) : Nat → List ParsedTx → List Tx
  | _, [] => []
  | n, t :: ts =>
    { id := idGen n, date := t.date, description := t.description, amount := t.amount,
      vendor := ev t.description, category := dc t.description,
      isSubscription := false, subscriptionFrequency := none, type := t.type } ::
      enrichFrom idGen ev dc (n + 1) ts

/-- Comparator of the final sort of `parseCSV`
(`(a, b) => b.date.getTime() - a.date.getTime()`, i.e. date descending). -/
def dateDescLe (a b : Tx) : Bool :=
  jsGetTime b.date ≤ jsGetTime a.date

/-- Line preprocessing of `parseCSV`: split on newlines, trim, drop blank
lines. -/
def splitLines (content : List Char) : List (List Char) :=
  ((splitOnC '\n' content).map trimL).filter (fun l => !l.isEmpty)

/-- Format dispatch of `parseCSV`: choose the parsed records for the given
content (the body of the `if`/`else if` chain). -/
def dispatchParsed (content : List Char) : List ParsedTx :=
  let lines := splitLines content
  let contentLower := toLowerL content
  let hasFormat3Header := lines.any (fun line =>
    let lower := toLowerL line
    isSubstr "date".data lower && isSubstr "description".data lower &&
      isSubstr "amount".data lower && !isSubstr "posted date".data lower)
  if isSubstr "american express".data contentLower || isSubstr "amex".data contentLower ||
      hasFormat3Header then
    parseFormat3 lines
  else if isSubstr "posted date".data (toLowerL (lines.headD [])) ||
      isSubstr "payee".data (toLowerL (lines.headD [])) then
    parseFormat2 lines
  else if (lines.headD []).contains ',' && 8 ≤ (splitOnC ',' (lines.headD [])).length then
    parseFormat1 lines
  else
    parseFallback lines

/-- Embedding of `parseCSV` (`src/lib/csv-parser.ts`): empty input (no
non-blank line) gives `[]`; otherwise dispatch to a format parser, enrich
every record into a `Transaction` with `isSubscription = false`, and sort by
date descending. -/
def parseCSVL (idGen : Nat → String) (ev dc : List Char → List Char) (content : List Char) : List Tx :=
  let lines := splitLines content
  if lines.isEmpty then []
  else sortByB dateDescLe (enrichFrom idGen ev dc 0 (dispatchParsed content))

/-! ## Recurring-payment detector: key normalization

Each `stripX` function is one `String.prototype.replace` of
`RecurringDetector.normalizeKey`, with JS leftmost-scan semantics.  As with
the date matchers, the sub-patterns draw from disjoint character classes, so
greedy maximal-munch is exactly the backtracking behaviour; the inline
comments note the one-step argument where it is not immediate. -/

/-- Tail test `[A-Z]⁠{4,}(\s+[A-Z]⁠{4,})*\s*$` starting at a capital letter:
all-caps words of length at least 4, whitespace-separated, to the end.  (The
caps run starts at the head, so dropping its length from `c :: rest` is
dropping one less from `rest`.) -/
def capsWordsToEndF : Nat → List Char → Bool
  | _, [] => false
  | 0, _ :: _ => false
  | fuel + 1, c :: rest =>
    if ((c :: rest).takeWhile isUpperC).length < 4 then false
    else
      let r := rest.drop (((c :: rest).takeWhile isUpperC).length - 1)
      if (r.dropWhile jsIsSpace).isEmpty then true
      else if (r.takeWhile jsIsSpace).isEmpty then false
      else capsWordsToEndF fuel (r.dropWhile jsIsSpace)

/-- Tail test entry point: every recursive step of `capsWordsToEndF` consumes
at least one character, so the length of the string bounds the steps. -/
def capsWordsToEnd (s : List Char) : Bool :=
  capsWordsToEndF s.length s

/-- Leftmost scan for `\s⁠{minWs,}([A-Z]⁠{4,}(\s+[A-Z]⁠{4,})*)\s*$`: the result
is the part of the string before the match (the match runs to the end), the
accumulator holding the scanned part reversed. -/
def stripCapsSuffixGo (minWs : Nat) (acc : List Char) : List Char → List Char
  | [] => acc.reverse
  | c :: rest =>
    if jsIsSpace c && minWs ≤ ((c :: rest).takeWhile jsIsSpace).length &&
        capsWordsToEnd ((c :: rest).dropWhile jsIsSpace) then
      acc.reverse
    else stripCapsSuffixGo minWs (c :: acc) rest

/-- Replace `\s⁠{2,}([A-Z]⁠{4,}(\s+[A-Z]⁠{4,})*)\s*$` by the empty string
(first cleanup of `normalizeKey`; the `g` flag is moot as a match reaches the
end).  With `minWs = 1` this is also the third cleanup, whose replacement
callback always returns the empty string because the captured group is
all-caps of length ≥ 4 by construction. -/
def stripCapsSuffix (minWs : Nat) (s : List Char) : List Char :=
  stripCapsSuffixGo minWs [] s

/-- City alternatives of the second cleanup regex, lowercase for the
case-insensitive comparison. -/
def cityList : List (List Char) :=
  ["san francisco".data, "covina".data, "singapore".data, "vancouver".data,
   "montreal".data, "toronto".data, "new york".data, "los angeles".data]

/-- Tail test for one city alternative followed by `\s*$`. -/
def cityMatchEnd (r : List Char) : Bool :=
  cityList.any (fun city =>
    city.isPrefixOf (toLowerL r) && ((toLowerL r).drop city.length).all jsIsSpace)

/-- Leftmost scan for
`\s+(SAN FRANCISCO|COVINA|SINGAPORE|VANCOUVER|MONTREAL|TORONTO|NEW YORK|LOS ANGELES)\s*$`
(case-insensitive), removing the match (second cleanup of `normalizeKey`). -/
def stripCityGo (acc : List Char) : List Char → List Char
  | [] => acc.reverse
  | c :: rest =>
    if jsIsSpace c && cityMatchEnd ((c :: rest).dropWhile jsIsSpace) then acc.reverse
    else stripCityGo (c :: acc) rest

/-- Second cleanup of `normalizeKey` (trailing city names). -/
def stripCity (s : List Char) : List Char :=
  stripCityGo [] s

/-- Replace every whitespace run by a single space (`replace(/\s+/g, " ")`). -/
def collapseWsF : Nat → List Char → List Char
  | _, [] => []
  | 0, l => l
  | fuel + 1, c :: rest =>
    if jsIsSpace c then ' ' :: collapseWsF fuel (rest.dropWhile jsIsSpace)
    else c :: collapseWsF fuel rest

/-- Collapse entry point (each step consumes at least one character). -/
def collapseWs (s : List Char) : List Char :=
  collapseWsF s.length s

/-- Remove a leading tag followed by whitespace
(`replace(/^(tag1|tag2|...)\s+/i, "")`): the first alternative, in pattern
order, that is a prefix and is followed by at least one whitespace character
is removed together with the whitespace run. -/
def dropLeadTag (tags : List (List Char)) (s : List Char) : List Char :=
  match tags.find? (fun tag => tag.isPrefixOf s && !((s.drop tag.length).takeWhile jsIsSpace).isEmpty) with
  | some tag => (s.drop tag.length).dropWhile jsIsSpace
  | none => s

/-- Leftmost scan for `\s+(tag1|tag2|...)$`: at a whitespace position the
rest of the string after the whitespace run must equal one alternative
exactly (the pattern is end-anchored with no slack). -/
def dropTrailTagGo (tags : List (List Char)) (acc : List Char) : List Char → List Char
  | [] => acc.reverse
  | c :: rest =>
    if jsIsSpace c && tags.any (fun tag => (c :: rest).dropWhile jsIsSpace = tag) then acc.reverse
    else dropTrailTagGo tags (c :: acc) rest

/-- Remove a whitespace-separated trailing tag
(`replace(/\s+(tag1|tag2|...)$/i, "")`). -/
def dropTrailTag (tags : List (List Char)) (s : List Char) : List Char :=
  dropTrailTagGo tags [] s

/-- Replace `\b\d⁠{10,}\b` by the empty string (`g` flag): remove every
maximal digit run of length at least 10 whose neighbours are non-word
characters or the string ends.  A run glued to a word character never
matches: the trailing `\b` fails for every split of the greedy `\d⁠{10,}`,
and positions inside the run have no leading boundary. -/
def stripLongDigitsF : Option Char → Nat → List Char → List Char
  | _, _, [] => []
  | _, 0, l => l
  | prev, fuel + 1, c :: rest =>
    if c.isDigit && !isWordO prev then
      let run := rest.takeWhile Char.isDigit
      let after := rest.drop run.length
      if 10 ≤ run.length + 1 && !isWordO after.head? then
        stripLongDigitsF (some (run.getLastD c)) fuel after
      else c :: stripLongDigitsF (some c) fuel rest
    else c :: stripLongDigitsF (some c) fuel rest

/-- Long-digit-run removal entry point (each step consumes at least one
character, so the length of the string bounds the steps). -/
def stripLongDigits (s : List Char) : List Char :=
  stripLongDigitsF none s.length s

/-- Replace `\b[a-z]*[0-9]+[a-z0-9]*\b` (`gi` flags) by the empty string:
remove every word-boundary-delimited token of ASCII letters and digits that
contains at least one digit (tokens touching an underscore survive, as the
character classes exclude it while `\b` counts it as a word character). -/
def stripDigitTokensF : Option Char → Nat → List Char → List Char
  | _, _, [] => []
  | _, 0, l => l
  | prev, fuel + 1, c :: rest =>
    if (c.isAlpha || c.isDigit) && !isWordO prev then
      let letters := (c :: rest).takeWhile Char.isAlpha
      let digits := ((c :: rest).drop letters.length).takeWhile Char.isDigit
      if digits.length = 0 then c :: stripDigitTokensF (some c) fuel rest
      else
        let alnums := ((c :: rest).drop (letters.length + digits.length)).takeWhile
          (fun x => x.isAlpha || x.isDigit)
        -- the token starts at `c`, so dropping its length from `c :: rest`
        -- is dropping one less from `rest`
        let after := rest.drop (letters.length + digits.length + alnums.length - 1)
        if !isWordO after.head? then
          stripDigitTokensF (some (alnums.getLastD (digits.getLastD c))) fuel after
        else c :: stripDigitTokensF (some c) fuel rest
    else c :: stripDigitTokensF (some c) fuel rest

/-- Digit-bearing-token removal entry point. -/
def stripDigitTokens (s : List Char) : List Char :=
  stripDigitTokensF none s.length s

/-- Replace `\b[a-z]⁠{1,2}[0-9]⁠{4,}[a-z0-9]*\b` (`gi`): one or two letters
(a longer letter run makes every split fail), at least four digits, then
letters or digits, between word boundaries. -/
def stripShortCodesF : Option Char → Nat → List Char → List Char
  | _, _, [] => []
  | _, 0, l => l
  | prev, fuel + 1, c :: rest =>
    if c.isAlpha && !isWordO prev then
      let letters := (c :: rest).takeWhile Char.isAlpha
      if letters.length = 0 || 3 ≤ letters.length then c :: stripShortCodesF (some c) fuel rest
      else
        let digits := ((c :: rest).drop letters.length).takeWhile Char.isDigit
        if digits.length < 4 then c :: stripShortCodesF (some c) fuel rest
        else
          let alnums := ((c :: rest).drop (letters.length + digits.length)).takeWhile
            (fun x => x.isAlpha || x.isDigit)
          let after := rest.drop (letters.length + digits.length + alnums.length - 1)
          if !isWordO after.head? then
            stripShortCodesF (some (alnums.getLastD (digits.getLastD c))) fuel after
          else c :: stripShortCodesF (some c) fuel rest
    else c :: stripShortCodesF (some c) fuel rest

/-- Short-code removal entry point. -/
def stripShortCodes (s : List Char) : List Char :=
  stripShortCodesF none s.length s

/-- Replace `\b[0-9]+[a-z]⁠{4,}\b` (`gi`): digits then at least four letters
between word boundaries. -/
def stripNumWordsF : Option Char → Nat → List Char → List Char
  | _, _, [] => []
  | _, 0, l => l
  | prev, fuel + 1, c :: rest =>
    if c.isDigit && !isWordO prev then
      let digits := (c :: rest).takeWhile Char.isDigit
      let letters := ((c :: rest).drop digits.length).takeWhile Char.isAlpha
      let after := rest.drop (digits.length + letters.length - 1)
      if 4 ≤ letters.length && !isWordO after.head? then
        stripNumWordsF (some (letters.getLastD c)) fuel after
      else c :: stripNumWordsF (some c) fuel rest
    else c :: stripNumWordsF (some c) fuel rest

/-- Number-then-word token removal entry point. -/
def stripNumWords (s : List Char) : List Char :=
  stripNumWordsF none s.length s

/-- Replace `\*\d⁠{4}` (`g`) by the empty string: a star followed by four
digits (exactly four are consumed; no boundary constraints). -/
def stripStar4F : Nat → List Char → List Char
  | _, [] => []
  | 0, l => l
  | fuel + 1, '*' :: rest =>
    if (rest.take 4).length = 4 && (rest.take 4).all Char.isDigit then stripStar4F fuel (rest.drop 4)
    else '*' :: stripStar4F fuel rest
  | fuel + 1, c :: rest => c :: stripStar4F fuel rest

/-- Card-suffix removal entry point. -/
def stripStar4 (s : List Char) : List Char :=
  stripStar4F s.length s

/-- Replace `\*[a-z]+` (`gi`) by the empty string: a star followed by a
maximal nonempty letter run. -/
def stripStarWordF : Nat → List Char → List Char
  | _, [] => []
  | 0, l => l
  | fuel + 1, '*' :: rest =>
    let run := rest.takeWhile Char.isAlpha
    if run.length = 0 then '*' :: stripStarWordF fuel rest
    else stripStarWordF fuel (rest.drop run.length)
  | fuel + 1, c :: rest => c :: stripStarWordF fuel rest

/-- Starred-word removal entry point. -/
def stripStarWord (s : List Char) : List Char :=
  stripStarWordF s.length s

/-- Leading tags removed by `normalizeKey` (the description is lowercase at
that point, so the `i` flag is moot). -/
def leadTags : List (List Char) :=
  ["purchase".data, "debit".data, "payment".data, "transfer".data, "ach".data,
   "autopay".data, "automatic".data, "card".data]

/-- Embedding of `RecurringDetector.normalizeKey`'s description pipeline
(`src/lib/csv-parser.ts`, the second of the two `normalizeKey` variants,
which strips location suffixes and groups by the first four meaningful
words).  After the final collapse-and-trim the only whitespace character is
a single space, so the `split(/\s+/)` is a split on spaces. -/
def normalizeKeyDesc (description : List Char) : List Char :=
  let d1 := trimL (stripCapsSuffix 2 description)
  let d2 := trimL (stripCity d1)
  let d3 := trimL (stripCapsSuffix 1 d2)
  let d4 := trimL (collapseWs (toLowerL d3))
  let d5 := dropLeadTag leadTags d4
  let d6 := dropTrailTag ["purchase".data, "debit".data, "payment".data, "transfer".data] d5
  let d7 := stripLongDigits d6
  let d8 := stripDigitTokens d7
  let d9 := stripShortCodes d8
  let d10 := stripNumWords d9
  let d11 := stripStar4 d10
  let d12 := stripStarWord d11
  let d13 := dropTrailTag
    ["online".data, "authorized".data, "pending".data, "completed".data, "processed".data] d12
  let d14 := dropTrailTag ["subscr".data, "subscription".data] d13
  let d15 := d14.map (fun c => if c = '_' then ' ' else c)
  let d16 := trimL (collapseWs d15)
  let words := (splitOnC ' ' d16).filter (fun w => 2 < w.length)
  joinSep ' ' (words.take 4)

/-- Grouping key of `RecurringDetector.normalizeKey`: the cleaned first
words and the amount rounded to the nearest 2 currency units
(`Math.round(amount / 2) * 2`); the source interpolates them as
`words|rounded`, modelled as the pair (see the header note). -/
def normalizeKey (t : ParsedTx) : List Char × Int :=
  (normalizeKeyDesc t.description, jsRound (qdiv t.amount 2) * 2)

/-! ## Recurring-payment detector: grouping and gates -/

/-- Per-transaction identity string
`date.getTime()-amount-description`, modelled as the triple (see the header
note on key strings). -/
def tripleP (t : ParsedTx) : Int × ℚ × List Char :=
  (jsGetTime t.date, t.amount, t.description)

/-- Identity triple of a ledger transaction (`detectSubscriptions` builds
the same interpolated string from a `Transaction`). -/
def tripleT (t : Tx) : Int × ℚ × List Char :=
  (jsGetTime t.date, t.amount, t.description)

/-- Append a transaction to its key's group, keeping first-insertion group
order (the JS `Map` iterates in insertion order). -/
def addToGroups (k : List Char × Int) (t : ParsedTx) :
    List ((List Char × Int) × List ParsedTx) → List ((List Char × Int) × List ParsedTx)
  | [] => [(k, [t])]
  | (k2, g) :: rest =>
    if k2 = k then (k2, g ++ [t]) :: rest else (k2, g) :: addToGroups k t rest

/-- Grouping loop of `detectRecurringPayments`. -/
def buildGroupsFrom (gs : List ((List Char × Int) × List ParsedTx)) :
    List ParsedTx → List ((List Char × Int) × List ParsedTx)
  | [] => gs
  | t :: ts => buildGroupsFrom (addToGroups (normalizeKey t) t gs) ts

/-- Group the debit transactions by normalized key, in insertion order. -/
def buildGroups (l : List ParsedTx) : List ((List Char × Int) × List ParsedTx) :=
  buildGroupsFrom [] l

/-- In-group sort comparator
(`(a, b) => a.date.getTime() - b.date.getTime()`, date ascending). -/
def pLe (a b : ParsedTx) : Bool :=
  jsGetTime a.date ≤ jsGetTime b.date

/-- Same calendar day comparison (`getFullYear`/`getMonth`/`getDate` all
equal), as in the all-same-day gate. -/
def sameCivilDay (a b : Int) : Bool :=
  decide (jsGetFullYear a = jsGetFullYear b) && decide (jsGetMonth a = jsGetMonth b) &&
    decide (jsGetDate a = jsGetDate b)

/-- Count the occurrences of a day of month, keeping first-occurrence order
(the `dayCounts` map of `isSameDayOfMonth`). -/
def bumpDay (counts : List (Int × Nat)) (d : Int) : List (Int × Nat) :=
  match counts with
  | [] => [(d, 1)]
  | (d2, n) :: rest => if d2 = d then (d2, n + 1) :: rest else (d2, n) :: bumpDay rest d

/-- Embedding of `RecurringDetector.isSameDayOfMonth`
(`src/lib/csv-parser.ts`): the mode of the days of month (first-seen entry
wins ties, starting from the first transaction's day with count 0), and
every member within ±1 of the mode or in the month-end wraparound window. -/
def isSameDayOfMonth : List ParsedTx → Bool
  | [] => false
  | [_] => false
  | t0 :: t1 :: rest =>
    let txs := t0 :: t1 :: rest
    let daysOfMonth := txs.map (fun t => jsGetDate t.date)
    let dayCounts := daysOfMonth.foldl bumpDay []
    let best := dayCounts.foldl (fun best e => if best.2 < e.2 then e else best) (jsGetDate t0.date, 0)
    let mostCommonDay := best.1
    daysOfMonth.all (fun day =>
      let diff := if day - mostCommonDay < 0 then mostCommonDay - day else day - mostCommonDay
      decide (diff ≤ 1) || (decide (29 ≤ mostCommonDay) && decide (day ≤ 2)) ||
        (decide (29 ≤ day) && decide (mostCommonDay ≤ 2)))

/-- Gate chain of `detectRecurringPayments` on one date-sorted group: at
least 2 members; not all on the same calendar day; for exactly 2 members an
interval of at least 20 days lying in the monthly band 20–40 or the annual
band 350–380; the amount-variance ceiling (20% for 2 members, 10% for more)
enforced only on groups of fewer than 3; and the day-of-month alignment.
The JS variance expression `(max - min) / avg` at `avg = 0` yields
`Infinity` (exceeds every ceiling) when `max > min` and `NaN` (exceeds no
ceiling) when `max = min`, which the `avg = 0` case reproduces. -/
def survivesSorted : List ParsedTx → Bool
  | [] => false
  | [_] => false
  | first :: second :: rest =>
    let g := first :: second :: rest
    let allSameDay := g.all (fun t => sameCivilDay t.date first.date)
    if allSameDay then false
    else
      let pairGate : Bool :=
        match rest with
        | [] =>
          let daysDiff := qabs (qdiv (qfromInt (jsGetTime second.date - jsGetTime first.date))
            (qfromInt 86400000))
          if daysDiff < qfromInt 20 then false
          else
            (decide (qfromInt 20 ≤ daysDiff) && decide (daysDiff ≤ qfromInt 40)) ||
              (decide (qfromInt 350 ≤ daysDiff) && decide (daysDiff ≤ qfromInt 380))
        | _ => true
      if !pairGate then false
      else
        let amounts := g.map (fun t => t.amount)
        let avgAmount := qdiv (amounts.foldl qadd 0) (qfromInt amounts.length)
        let minAmount := match amounts with
          | [] => 0
          | a :: r => r.foldl (fun x y => if y < x then y else x) a
        let maxAmount := match amounts with
          | [] => 0
          | a :: r => r.foldl (fun x y => if x < y then y else x) a
        let maxVariance : ℚ := if g.length = 2 then qdiv 1 5 else qdiv 1 10
        let varianceExceeds : Bool :=
          if avgAmount = 0 then decide (qsub maxAmount minAmount ≠ 0)
          else decide (maxVariance < qdiv (qsub maxAmount minAmount) avgAmount)
        if varianceExceeds && g.length < 3 then false
        else isSameDayOfMonth g

/-- Keys contributed by one group: sort it by date, and when every gate
passes take every member's identity triple. -/
def groupAccept (g : List ParsedTx) : List (Int × ℚ × List Char) :=
  let gs := sortByB pLe g
  if survivesSorted gs then gs.map tripleP else []

/-- Embedding of `RecurringDetector.detectRecurringPayments`
(`src/lib/csv-parser.ts`): filter to debits, group by normalized key, and
collect the identity triples of every group passing the gates (a JS `Set`
used only for membership, modelled as the concatenated key list). -/
def detectRecurringPayments (transactions : List ParsedTx) : List (Int × ℚ × List Char) :=
  let debits := transactions.filter (fun t => decide (t.type = TxType.debit))
  (buildGroups debits).foldl (fun acc kg => acc ++ groupAccept kg.2) []

/-- Membership in the subscription-key set (JS `Set.prototype.has` on the
interpolated key strings). -/
def keyMem (k : Int × ℚ × List Char) : List (Int × ℚ × List Char) → Bool
  | [] => false
  | x :: r => if x = k then true else keyMem k r

/-- Debit projection of `detectSubscriptions`: filter the ledger to debits
and rebuild `ParsedTransaction` records for the detector. -/
def parsedOf (ts : List Tx) : List ParsedTx :=
  (ts.filter (fun t => decide (t.type = TxType.debit))).map
    (fun t => ParsedTx.mk t.date t.amount t.description t.type)

/-- Subscription-key set computed by `detectSubscriptions` for a ledger. -/
def subKeysOf (ts : List Tx) : List (Int × ℚ × List Char) :=
  detectRecurringPayments (parsedOf ts)

/-- Per-transaction update of `detectSubscriptions`'s final `map`: copy the
transaction, setting `isSubscription` to "is a debit whose identity triple is
in the detected set". -/
def setFlag (keys : List (Int × ℚ × List Char)) (t : Tx) : Tx :=
  { t with isSubscription := decide (t.type = TxType.debit) && keyMem (tripleT t) keys }

/-- Embedding of `detectSubscriptions` (`src/lib/csv-parser.ts`): run the
detector over the debit subset and return the same transactions with
`isSubscription` set exactly on the debits whose identity triple was
collected. -/
def detectSubscriptionsL (ts : List Tx) : List Tx :=
  ts.map (setFlag (subKeysOf ts))

/-! ## Definitions used by the statements below -/

/-- Fields of a transaction that the detector reads (and that its identity
triple and grouping key derive from): date, amount, description, direction. -/
def Tx.core (t : Tx) : Int × ℚ × List Char × TxType :=
  (t.date, t.amount, t.description, t.type)

/-- All fields of a transaction except `isSubscription` (for the frame
property of `detectSubscriptions`). -/
def Tx.sansFlag (t : Tx) :
    String × Int × List Char × ℚ × List Char × List Char × Option SubFreq × TxType :=
  (t.id, t.date, t.description, t.amount, t.vendor, t.category, t.subscriptionFrequency, t.type)

/-- Absolute day difference of two parsed transactions, as the detector
computes it (`Math.abs((b.getTime() - a.getTime()) / 86400000)`). -/
def dayDiffQ (a b : ParsedTx) : ℚ :=
  qabs (qdiv (qfromInt (jsGetTime b.date - jsGetTime a.date)) (qfromInt 86400000))

/-- Interval bands accepted by the two-member gate: monthly 20–40 days or
annual 350–380 days, inclusive. -/
def inBand (x : ℚ) : Prop :=
  (20 ≤ x ∧ x ≤ 40) ∨ (350 ≤ x ∧ x ≤ 380)

/-- Double every quote of a field (the conventional CSV escape), for the
round-trip statement about `parseCSVLine`. -/
def escQ : List Char → List Char
  | [] => []
  | '"' :: r => '"' :: '"' :: escQ r
  | c :: r => c :: escQ r

/-- Conventional CSV encoding of a nonempty field sequence with every field
quoted: fields are quoted with `"`, inner quotes doubled, and joined by
commas (the reference encoding for the `parseCSVLine` round trip). -/
def encodeQuoted : List (List Char) → List Char
  | [] => []
  | [f] => '"' :: (escQ f ++ ['"'])
  | f :: g :: rest => '"' :: (escQ f ++ '"' :: ',' :: encodeQuoted (g :: rest))

/-- Failure of all four date patterns of `parseDate` on a (pre-trimmed)
string. -/
def noDateMatch (t : List Char) : Bool :=
  (matchISO t).isNone && (matchSlash t).isNone && (matchSlash4 t).isNone &&
    (matchMonthName t).isNone

/-! ## Concrete inputs for the evaluation theorems and witnesses -/

/-- Transaction builder for concrete scenarios. -/
def mkTx (d : Int) (a : ℚ) (desc : String) (ty : TxType) : Tx :=
  { id := "t", date := d, description := desc.data, amount := a,
    vendor := [], category := [], isSubscription := false,
    subscriptionFrequency := none, type := ty }

/-- Trivial identifier generator for concrete `parseCSVL` runs. -/
def idGen0 : Nat → String := fun _ => ""

/-- Trivial vendor extractor for concrete `parseCSVL` runs. -/
def ev0 : List Char → List Char := fun d => d

/-- Trivial category assigner for concrete `parseCSVL` runs. -/
def dc0 : List Char → List Char := fun _ => "Other".data

/-- CSV text routed to the generic fallback parser whose data row has amount
`0`: the fallback path checks `isNaN` but not `amount === 0`. -/
def csvZero : List Char :=
  "date,desc,amount\n2025-03-04,Coffee Shop,0".data

/-- Three same-merchant debits of $35.00, $36.50 and $37.00 on the 14th–15th
of three consecutive months (the boundary scenario of the spec). -/
def tsThree : List Tx :=
  [mkTx (daysFromCivil 2025 1 14) 35 "SUPABASE" TxType.debit,
   mkTx (daysFromCivil 2025 2 15) (Rat.divInt 73 2) "SUPABASE" TxType.debit,
   mkTx (daysFromCivil 2025 3 14) 37 "SUPABASE" TxType.debit]

/-- Two equal same-merchant debits 30 days apart on the 15th/14th: a group
that passes every gate. -/
def tsFlagged : List Tx :=
  [mkTx (daysFromCivil 2025 1 15) 35 "NETFLIX" TxType.debit,
   mkTx (daysFromCivil 2025 2 14) 35 "NETFLIX" TxType.debit]

/-- The flagged pair with stale subscription fields on the input, for the
flag-recomputation witness. -/
def tsStale : List Tx :=
  [mkTx (daysFromCivil 2025 1 15) 35 "HULU" TxType.debit,
   { mkTx (daysFromCivil 2025 2 14) 35 "HULU" TxType.debit with
      isSubscription := true, subscriptionFrequency := some SubFreq.annual }]

/-- The same pair as `tsStale` with pristine flags (equal cores). -/
def tsFresh : List Tx :=
  [mkTx (daysFromCivil 2025 1 15) 35 "HULU" TxType.debit,
   mkTx (daysFromCivil 2025 2 14) 35 "HULU" TxType.debit]

/-- Two same-key debits exactly 19 days apart (the under-20-days boundary of
the spec). -/
def tsNineteen : List Tx :=
  [mkTx (daysFromCivil 2025 1 1) 10 "SPOTIFY" TxType.debit,
   mkTx (daysFromCivil 2025 1 20) 10 "SPOTIFY" TxType.debit]

/-- A ledger with a credit pair that would pass every grouping gate were it
a debit pair, for the credits-never-flagged witness. -/
def tsCredits : List Tx :=
  [mkTx (daysFromCivil 2025 1 15) 35 "EMPLOYER" TxType.credit,
   mkTx (daysFromCivil 2025 2 14) 35 "EMPLOYER" TxType.credit]

/-- A two-row CSV text in ascending date order, for the sortedness witness. -/
def csvTwo : List Char :=
  "date,desc,amount\n2025-03-04,Tennis Club,-12.50\n2025-03-06,Water Bill,-30".data

/-- A one-row CSV text for the parse-flag witness. -/
def csvOne : List Char :=
  "date,desc,amount\n2025-03-04,Gym Fee,-25".data

/-- The transaction `parseCSVL idGen0 ev0 dc0 csvOne` produces. -/
def txGym : Tx :=
  { id := "", date := daysFromCivil 2025 3 4, description := "Gym Fee".data, amount := 25,
    vendor := "Gym Fee".data, category := "Other".data, isSubscription := false,
    subscriptionFrequency := none, type := TxType.debit }

/-- The later-dated transaction `parseCSVL idGen0 ev0 dc0 csvTwo` produces. -/
def txWater : Tx :=
  { id := "", date := daysFromCivil 2025 3 6, description := "Water Bill".data, amount := 30,
    vendor := "Water Bill".data, category := "Other".data, isSubscription := false,
    subscriptionFrequency := none, type := TxType.debit }

/-- First element of `tsCredits` (unchanged by detection). -/
def txEmp : Tx :=
  mkTx (daysFromCivil 2025 1 15) 35 "EMPLOYER" TxType.credit

/-- Parsed records of `tsNineteen`, for the two-member-gate witness. -/
def pSpot1 : ParsedTx :=
  ParsedTx.mk (daysFromCivil 2025 1 1) 10 "SPOTIFY".data TxType.debit

/-- Second parsed record of `tsNineteen`. -/
def pSpot2 : ParsedTx :=
  ParsedTx.mk (daysFromCivil 2025 1 20) 10 "SPOTIFY".data TxType.debit

/-! ## Helper lemmas -/

theorem mem_insertLe {α : Type} (le : α → α → Bool) (x a : α) :
    ∀ l : List α, a ∈ insertLe le x l ↔ a = x ∨ a ∈ l := by
  intro l
  induction l with
  | nil => simp [insertLe]
  | cons b t ih =>
    simp only [insertLe]
    split
    · simp
    · simp only [List.mem_cons, ih]
      tauto

theorem mem_sortByB {α : Type} (le : α → α → Bool) (a : α) :
    ∀ l : List α, a ∈ sortByB le l ↔ a ∈ l := by
  intro l
  induction l with
  | nil => simp [sortByB]
  | cons b t ih => simp only [sortByB, mem_insertLe, ih, List.mem_cons]

theorem insertLe_pairwise {α : Type} (le : α → α → Bool)
    (htrans : ∀ a b c, le a b = true → le b c = true → le a c = true)
    (htot : ∀ a b, le a b = true ∨ le b a = true) (x : α) :
    ∀ l : List α, List.Pairwise (fun a b => le a b = true) l →
      List.Pairwise (fun a b => le a b = true) (insertLe le x l) := by
  intro l
  induction l with
  | nil => intro _; simp [insertLe]
  | cons b t ih =>
    intro h
    obtain ⟨hb, ht⟩ := List.pairwise_cons.mp h
    simp only [insertLe]
    split
    · rename_i hxb
      exact List.pairwise_cons.mpr ⟨by
        intro y hy
        rcases List.mem_cons.mp hy with rfl | hyt
        · exact hxb
        · exact htrans x b y hxb (hb y hyt), h⟩
    · rename_i hxb
      have hbx : le b x = true := by
        rcases htot x b with h1 | h1
        · exact absurd h1 hxb
        · exact h1
      exact List.pairwise_cons.mpr ⟨by
        intro y hy
        rcases (mem_insertLe le x y t).mp hy with rfl | hyt
        · exact hbx
        · exact hb y hyt, ih ht⟩

theorem sortByB_pairwise {α : Type} (le : α → α → Bool)
    (htrans : ∀ a b c, le a b = true → le b c = true → le a c = true)
    (htot : ∀ a b, le a b = true ∨ le b a = true) :
    ∀ l : List α, List.Pairwise (fun a b => le a b = true) (sortByB le l) := by
  intro l
  induction l with
  | nil => simp [sortByB]
  | cons b t ih => exact insertLe_pairwise le htrans htot b (sortByB le t) ih

theorem enrichFrom_isSub (idG : Nat → String) (ev dc : List Char → List Char) :
    ∀ (l : List ParsedTx) (n : Nat) (t : Tx), t ∈ enrichFrom idG ev dc n l →
      t.isSubscription = false := by
  intro l
  induction l with
  | nil => intro n t h; simp [enrichFrom] at h
  | cons p ps ih =>
    intro n t h
    simp only [enrichFrom, List.mem_cons] at h
    rcases h with rfl | h
    · rfl
    · exact ih (n + 1) t h

theorem parseCSVL_mem_isSub (idG : Nat → String) (ev dc : List Char → List Char)
    (content : List Char) (t : Tx) (h : t ∈ parseCSVL idG ev dc content) :
    t.isSubscription = false := by
  by_cases hc : (splitLines content).isEmpty = true
  · simp [parseCSVL, hc] at h
  · simp only [parseCSVL, hc, if_false] at h
    exact enrichFrom_isSub idG ev dc _ 0 t ((mem_sortByB _ t _).mp h)

theorem keyMem_iff (k : Int × ℚ × List Char) :
    ∀ l, keyMem k l = true ↔ k ∈ l := by
  intro l
  induction l with
  | nil => simp [keyMem]
  | cons x r ih =>
    simp only [keyMem]
    split
    · rename_i hx; subst hx; simp
    · rename_i hx
      simp only [ih, List.mem_cons]
      constructor
      · exact Or.inr
      · rintro (rfl | h)
        · exact absurd rfl hx
        · exact h

theorem parsedOf_map_setFlag (K : List (Int × ℚ × List Char)) :
    ∀ ts : List Tx, parsedOf (ts.map (setFlag K)) = parsedOf ts := by
  intro ts
  induction ts with
  | nil => rfl
  | cons t ts ih =>
    simp only [parsedOf, List.map_cons, List.filter_cons] at ih ⊢
    have htype : (setFlag K t).type = t.type := rfl
    rw [htype]
    split
    · simp only [List.map_cons]
      exact congrArg₂ _ rfl ih
    · exact ih

theorem subKeysOf_detect (ts : List Tx) :
    subKeysOf (detectSubscriptionsL ts) = subKeysOf ts := by
  unfold detectSubscriptionsL subKeysOf
  rw [parsedOf_map_setFlag]

theorem parsedOf_eq_of_core :
    ∀ ts ts2 : List Tx, ts.map Tx.core = ts2.map Tx.core → parsedOf ts = parsedOf ts2 := by
  intro ts
  induction ts with
  | nil =>
    intro ts2 h
    cases ts2 with
    | nil => rfl
    | cons t2 r2 => simp at h
  | cons t r ih =>
    intro ts2 h
    cases ts2 with
    | nil => simp at h
    | cons t2 r2 =>
      simp only [List.map_cons, List.cons.injEq] at h
      obtain ⟨hc, hr⟩ := h
      have hdate : t.date = t2.date := congrArg (fun c => c.1) hc
      have hamt : t.amount = t2.amount := congrArg (fun c => c.2.1) hc
      have hdesc : t.description = t2.description := congrArg (fun c => c.2.2.1) hc
      have hty : t.type = t2.type := congrArg (fun c => c.2.2.2) hc
      simp only [parsedOf, List.filter_cons, hty]
      split
      · simp only [List.map_cons, hdate, hamt, hdesc, hty]
        have := ih r2 hr
        simp only [parsedOf] at this
        rw [this]
      · have := ih r2 hr
        simp only [parsedOf] at this
        exact this

theorem detect_flags_core (ts : List Tx) :
    (detectSubscriptionsL ts).map (fun t => t.isSubscription) =
      (ts.map Tx.core).map (fun c =>
        decide (c.2.2.2 = TxType.debit) && keyMem (jsGetTime c.1, c.2.1, c.2.2.1) (subKeysOf ts)) := by
  simp only [detectSubscriptionsL, List.map_map]
  rfl

/-! ## Claim theorems -/

/-- Claim C1 (code bug evaluation).  The spec says every `parseCSV` output
transaction has `amount > 0` (all parsers reject an amount of exactly 0), but
the generic fallback branch checks only `isNaN`: on this CSV text, whose
single data row has amount `0`, `parseCSV` returns one transaction with
`amount = 0` (and an otherwise valid description), for every identifier
generator and enrichment. -/
theorem C1_fallback_zero_amount :
    (parseCSVL idGen0 ev0 dc0 csvZero).map (fun t => t.amount) = [0] ∧
    (parseCSVL idGen0 ev0 dc0 csvZero).map (fun t => t.description) = ["Coffee Shop".data] ∧
    (parseCSVL idGen0 ev0 dc0 csvZero).map (fun t => t.type) = [TxType.credit] := by
  refine ⟨by decide, by decide, by decide⟩

/-- Claim C3 (code bug evaluation).  The spec (and the source's own comment
on the rounding granularity: "This groups Supabase ($35-37)... together")
expects the three debits of $35.00, $36.50 and $37.00 on the 14th–15th of
consecutive months to all be flagged, but `Math.round(amount / 2) * 2` sends
35 and 36.5 to 36 while 37 goes to 38, so the third transaction lands in a
singleton group and stays unflagged. -/
theorem C3_three_debits_eval :
    (detectSubscriptionsL tsThree).map (fun t => t.isSubscription) = [true, true, false] ∧
    (normalizeKey (ParsedTx.mk (daysFromCivil 2025 1 14) 35 "SUPABASE".data TxType.debit)).2 = 36 ∧
    (normalizeKey (ParsedTx.mk (daysFromCivil 2025 3 14) 37 "SUPABASE".data TxType.debit)).2 = 38 := by
  refine ⟨by decide, by decide, by decide⟩

/-- Claim C2, counterexample.  The claim says `detectSubscriptions` assigns
`subscriptionFrequency` ("annual" or "monthly") on every flagged
transaction; on this pair of equal debits 30 days apart both outputs are
flagged yet their `subscriptionFrequency` is still `none`. -/
theorem C2_counterexample_freq_not_assigned :
    (detectSubscriptionsL tsFlagged).map (fun t => t.isSubscription) = [true, true] ∧
    (detectSubscriptionsL tsFlagged).map (fun t => t.subscriptionFrequency) = [none, none] := by
  refine ⟨by decide, by decide⟩

/-- Claim C2 (amended).  `detectSubscriptions` recomputes only
`isSubscription` from scratch — the flags depend on the input only through
the fields the detector reads (date, amount, description, direction), so
prior flags are discarded — while `subscriptionFrequency` is never assigned:
every prior value is passed through unchanged. -/
theorem C2_flags_recomputed_freq_preserved :
    (∀ ts : List Tx, (detectSubscriptionsL ts).map (fun t => t.subscriptionFrequency) =
      ts.map (fun t => t.subscriptionFrequency)) ∧
    (∀ ts ts2 : List Tx, ts.map Tx.core = ts2.map Tx.core →
      (detectSubscriptionsL ts).map (fun t => t.isSubscription) =
        (detectSubscriptionsL ts2).map (fun t => t.isSubscription)) := by
  constructor
  · intro ts
    simp only [detectSubscriptionsL, List.map_map]
    rfl
  · intro ts ts2 h
    have hp : parsedOf ts = parsedOf ts2 := parsedOf_eq_of_core ts ts2 h
    have hk : subKeysOf ts = subKeysOf ts2 := by
      unfold subKeysOf
      rw [hp]
    rw [detect_flags_core, detect_flags_core, h, hk]

/-- Claim C2 witness: on the stale pair (one input transaction carries
`isSubscription = true` and a stale `subscriptionFrequency = annual`) the
amended claim's two parts give that the stale frequency survives in the
output and that the flags equal those of the pristine pair with the same
cores. -/
theorem C2_witness :
    ((detectSubscriptionsL tsStale).map (fun t => t.subscriptionFrequency) =
      tsStale.map (fun t => t.subscriptionFrequency)) ∧
    tsStale.map Tx.core = tsFresh.map Tx.core ∧
    ((detectSubscriptionsL tsStale).map (fun t => t.isSubscription) =
      (detectSubscriptionsL tsFresh).map (fun t => t.isSubscription)) :=
  ⟨C2_flags_recomputed_freq_preserved.1 tsStale, by decide,
    C2_flags_recomputed_freq_preserved.2 tsStale tsFresh (by decide)⟩

/-- Claim C6.  `detectSubscriptions` is idempotent on the `isSubscription`
flag: running it twice yields the same flag on every transaction as running
it once. -/
theorem C6_idempotent_flags (ts : List Tx) :
    (detectSubscriptionsL (detectSubscriptionsL ts)).map (fun t => t.isSubscription) =
      (detectSubscriptionsL ts).map (fun t => t.isSubscription) := by
  have hK := subKeysOf_detect ts
  rw [detectSubscriptionsL, hK, detectSubscriptionsL, List.map_map, List.map_map, List.map_map]
  rfl

/-- Claim C10.  Frame property of `detectSubscriptions`: the output has the
same length and order, and every field except `isSubscription` — id, date,
description, amount, vendor, category, any pre-existing
`subscriptionFrequency`, and direction — is unchanged position by
position. -/
theorem C10_detect_frame (ts : List Tx) :
    (detectSubscriptionsL ts).length = ts.length ∧
    (detectSubscriptionsL ts).map Tx.sansFlag = ts.map Tx.sansFlag := by
  constructor
  · simp [detectSubscriptionsL]
  · simp only [detectSubscriptionsL, List.map_map]
    rfl

/-- Claim C7.  The `isSubscription` flag appears only on debits: every
transaction returned by `parseCSV` has it `false` (for every identifier
generator, enrichment, and CSV text), and every credit in the output of
`detectSubscriptions` has it `false` regardless of how it grouped. -/
theorem C7_debit_only_flags :
    (∀ (idG : Nat → String) (ev dc : List Char → List Char) (content : List Char),
      ∀ t ∈ parseCSVL idG ev dc content, t.isSubscription = false) ∧
    (∀ ts : List Tx, ∀ t ∈ detectSubscriptionsL ts, t.type = TxType.credit →
      t.isSubscription = false) := by
  constructor
  · intro idG ev dc content t ht
    exact parseCSVL_mem_isSub idG ev dc content t ht
  · intro ts t ht hc
    simp only [detectSubscriptionsL, List.mem_map] at ht
    obtain ⟨t0, _, rfl⟩ := ht
    have ht0 : t0.type = TxType.credit := hc
    simp [setFlag, ht0]

/-- Claim C7 witness: a concrete parsed transaction has the flag `false`,
and a concrete credit that groups perfectly (two equal amounts 30 days
apart, same day-of-month ±1) still has it `false` after detection. -/
theorem C7_witness :
    (txGym ∈ parseCSVL idGen0 ev0 dc0 csvOne ∧ txGym.isSubscription = false) ∧
    (txEmp ∈ detectSubscriptionsL tsCredits ∧ txEmp.type = TxType.credit ∧
      txEmp.isSubscription = false) :=
  ⟨⟨by decide, C7_debit_only_flags.1 idGen0 ev0 dc0 csvOne txGym (by decide)⟩,
    ⟨by decide, by decide, C7_debit_only_flags.2 tsCredits txEmp (by decide) (by decide)⟩⟩

/-- Claim C9.  For every identifier generator, enrichment and CSV text, the
`parseCSV` output is sorted by transaction date descending, every element has
`isSubscription = false`, and input with zero non-blank lines yields the
empty list. -/
theorem C9_parse_sorted_desc (idG : Nat → String) (ev dc : List Char → List Char)
    (content : List Char) :
    List.Pairwise (fun a b : Tx => jsGetTime b.date ≤ jsGetTime a.date)
      (parseCSVL idG ev dc content) ∧
    (∀ t ∈ parseCSVL idG ev dc content, t.isSubscription = false) ∧
    (splitLines content = [] → parseCSVL idG ev dc content = []) := by
  refine ⟨?_, ?_, ?_⟩
  · have htrans : ∀ a b c : Tx, dateDescLe a b = true → dateDescLe b c = true →
        dateDescLe a c = true := by
      intro a b c h1 h2
      simp only [dateDescLe, decide_eq_true_eq] at h1 h2 ⊢
      omega
    have htot : ∀ a b : Tx, dateDescLe a b = true ∨ dateDescLe b a = true := by
      intro a b
      simp only [dateDescLe, decide_eq_true_eq]
      omega
    by_cases hc : (splitLines content).isEmpty = true
    · simp [parseCSVL, hc]
    · simp only [parseCSVL, hc, if_false]
      exact (sortByB_pairwise dateDescLe htrans htot _).imp (fun hab => by
        simpa only [dateDescLe, decide_eq_true_eq] using hab)
  · intro t ht
    exact parseCSVL_mem_isSub idG ev dc content t ht
  · intro h
    simp [parseCSVL, h]

/-- Claim C9 witness: the two-row CSV parses to a descending list whose
later-dated member carries a `false` flag, and whitespace-only text parses
to the empty list. -/
theorem C9_witness :
    List.Pairwise (fun a b : Tx => jsGetTime b.date ≤ jsGetTime a.date)
      (parseCSVL idGen0 ev0 dc0 csvTwo) ∧
    (txWater ∈ parseCSVL idGen0 ev0 dc0 csvTwo ∧ txWater.isSubscription = false) ∧
    (splitLines "\n  \n".data = [] ∧ parseCSVL idGen0 ev0 dc0 "\n  \n".data = []) :=
  ⟨(C9_parse_sorted_desc idGen0 ev0 dc0 csvTwo).1,
    ⟨by decide, (C9_parse_sorted_desc idGen0 ev0 dc0 csvTwo).2.1 txWater (by decide)⟩,
    ⟨by decide, (C9_parse_sorted_desc idGen0 ev0 dc0 "\n  \n".data).2.2 (by decide)⟩⟩

/-- Claim C4, counterexample.  The claim says `parseDate` signals no-match
when the matched components are not a valid calendar date, naming
`"2025-02-30"`; in fact `parseDate "2025-02-30"` is not `none` — the JS
`Date` constructor rolls Feb 30 over to Mar 2, 2025. -/
theorem C4_counterexample_feb30 :
    parseDateL "2025-02-30".data ≠ none ∧
    parseDateL "2025-02-30".data = some (daysFromCivil 2025 3 2) := by
  refine ⟨by decide, by decide⟩

/-- Claim C4 (amended).  `parseDate` returns `none` whenever no date pattern
matches the trimmed input; when a pattern does match, out-of-range
components are normalized by calendar rollover rather than rejected — e.g.
`"2025-02-30"` parses to the calendar date 2025-03-02. -/
theorem C4_nomatch_and_rollover :
    (∀ s : List Char, noDateMatch (trimL s) = true → parseDateL s = none) ∧
    (parseDateL "2025-02-30".data = some (daysFromCivil 2025 3 2) ∧
      jsGetFullYear (daysFromCivil 2025 3 2) = 2025 ∧
      jsGetMonth (daysFromCivil 2025 3 2) = 2 ∧
      jsGetDate (daysFromCivil 2025 3 2) = 2) := by
  constructor
  · intro s h
    simp only [noDateMatch, Bool.and_eq_true, Option.isNone_iff_eq_none] at h
    obtain ⟨⟨⟨h1, h2⟩, h3⟩, h4⟩ := h
    simp only [parseDateL, h1, h2, h3, h4]
    split
    · rfl
    · rfl
  · exact ⟨by decide, by decide, by decide, by decide⟩

/-- Claim C4 witness: a concrete string matched by no pattern parses to
`none`. -/
theorem C4_witness :
    noDateMatch (trimL "hello world".data) = true ∧ parseDateL "hello world".data = none :=
  ⟨by decide, C4_nomatch_and_rollover.1 "hello world".data (by decide)⟩

/-! ## Group-structure lemmas (for the two-member-gate claim) -/

theorem mem_addToGroups_key (k0 : List Char × Int) (t : ParsedTx) :
    ∀ gs kg, kg ∈ addToGroups k0 t gs → kg.1 = k0 ∨ ∃ kg2 ∈ gs, kg2.1 = kg.1 := by
  intro gs
  induction gs with
  | nil =>
    intro kg h
    simp only [addToGroups, List.mem_singleton] at h
    subst h
    exact Or.inl rfl
  | cons e rest ih =>
    intro kg h
    obtain ⟨k2, g⟩ := e
    simp only [addToGroups] at h
    split at h
    · rename_i heq
      rcases List.mem_cons.mp h with rfl | hm
      · exact Or.inl heq
      · exact Or.inr ⟨kg, List.mem_cons_of_mem _ hm, rfl⟩
    · rcases List.mem_cons.mp h with rfl | hm
      · exact Or.inr ⟨(k2, g), List.mem_cons_self _ _, rfl⟩
      · rcases ih kg hm with he | ⟨kg2, hm2, he⟩
        · exact Or.inl he
        · exact Or.inr ⟨kg2, List.mem_cons_of_mem _ hm2, he⟩

theorem exists_key_addToGroups (k0 : List Char × Int) (t : ParsedTx) :
    ∀ gs, ∃ kg ∈ addToGroups k0 t gs, kg.1 = k0 := by
  intro gs
  induction gs with
  | nil => exact ⟨(k0, [t]), by simp [addToGroups], rfl⟩
  | cons e rest ih =>
    obtain ⟨k2, g⟩ := e
    simp only [addToGroups]
    split
    · rename_i heq
      exact ⟨(k2, g ++ [t]), List.mem_cons_self _ _, heq⟩
    · obtain ⟨kg, hm, he⟩ := ih
      exact ⟨kg, List.mem_cons_of_mem _ hm, he⟩

theorem keys_sub_addToGroups (k0 : List Char × Int) (t : ParsedTx) :
    ∀ gs kg2, kg2 ∈ gs → ∃ kg ∈ addToGroups k0 t gs, kg.1 = kg2.1 := by
  intro gs
  induction gs with
  | nil => intro kg2 h; simp at h
  | cons e rest ih =>
    intro kg2 h
    obtain ⟨k2, g⟩ := e
    simp only [addToGroups]
    split
    · rcases List.mem_cons.mp h with rfl | hm
      · exact ⟨(k2, g ++ [t]), List.mem_cons_self _ _, rfl⟩
      · exact ⟨kg2, List.mem_cons_of_mem _ hm, rfl⟩
    · rcases List.mem_cons.mp h with rfl | hm
      · exact ⟨(k2, g), List.mem_cons_self _ _, rfl⟩
      · obtain ⟨kg, hm2, he⟩ := ih kg2 hm
        exact ⟨kg, List.mem_cons_of_mem _ hm2, he⟩

theorem addToGroups_keys_nodup (k0 : List Char × Int) (t : ParsedTx) :
    ∀ gs, List.Pairwise (fun a b => a.1 ≠ b.1) gs →
      List.Pairwise (fun a b => a.1 ≠ b.1) (addToGroups k0 t gs) := by
  intro gs
  induction gs with
  | nil => intro _; simp [addToGroups]
  | cons e rest ih =>
    intro h
    obtain ⟨k2, g⟩ := e
    obtain ⟨hhead, htail⟩ := List.pairwise_cons.mp h
    simp only [addToGroups]
    split
    · exact List.pairwise_cons.mpr ⟨fun kg hm => hhead kg hm, htail⟩
    · rename_i hne
      refine List.pairwise_cons.mpr ⟨?_, ih htail⟩
      intro kg hm
      rcases mem_addToGroups_key k0 t rest kg hm with he | ⟨kg2, hm2, he⟩
      · rw [he]; exact hne
      · rw [← he]; exact hhead kg2 hm2

theorem addToGroups_groups (t : ParsedTx) (pref : List ParsedTx) (k0 : List Char × Int)
    (hk0 : normalizeKey t = k0) :
    ∀ gs, (∀ kg ∈ gs, kg.2 = pref.filter (fun p => decide (normalizeKey p = kg.1))) →
      ((∀ kg ∈ gs, kg.1 ≠ k0) → pref.filter (fun p => decide (normalizeKey p = k0)) = []) →
      List.Pairwise (fun a b => a.1 ≠ b.1) gs →
      ∀ kg ∈ addToGroups k0 t gs,
        kg.2 = (pref ++ [t]).filter (fun p => decide (normalizeKey p = kg.1)) := by
  intro gs
  induction gs with
  | nil =>
    intro _ hB _ kg hm
    simp only [addToGroups, List.mem_singleton] at hm
    subst hm
    simp only [List.filter_append]
    rw [hB (by simp)]
    simp [hk0]
  | cons e rest ih =>
    intro hA hB hC kg hm
    obtain ⟨k2, g⟩ := e
    obtain ⟨hhead, htail⟩ := List.pairwise_cons.mp hC
    simp only [addToGroups] at hm
    split at hm
    · rename_i heq
      rcases List.mem_cons.mp hm with rfl | hmr
      · have hg : g = pref.filter (fun p => decide (normalizeKey p = k2)) :=
          hA (k2, g) (List.mem_cons_self _ _)
        simp only [List.filter_append]
        rw [← hg]
        simp [hk0, heq]
      · have hg := hA kg (List.mem_cons_of_mem _ hmr)
        have hk2 : k2 ≠ kg.1 := hhead kg hmr
        simp only [List.filter_append]
        rw [hg]
        have : ¬(normalizeKey t = kg.1) := by rw [hk0, ← heq]; exact hk2
        simp [this]
    · rename_i hne
      rcases List.mem_cons.mp hm with rfl | hmr
      · have hg := hA (k2, g) (List.mem_cons_self _ _)
        dsimp only at hg ⊢
        simp only [List.filter_append]
        rw [← hg]
        have hnk : ¬(normalizeKey t = k2) := by rw [hk0]; exact fun h2 => hne h2.symm
        simp [hnk]
      · refine ih ?_ ?_ htail kg hmr
        · intro kg2 hm2
          exact hA kg2 (List.mem_cons_of_mem _ hm2)
        · intro hall
          apply hB
          intro kg2 hm2
          rcases List.mem_cons.mp hm2 with rfl | hm3
          · exact hne
          · exact hall kg2 hm3

theorem buildGroupsFrom_spec :
    ∀ (l : List ParsedTx) (gs : List ((List Char × Int) × List ParsedTx)) (pref : List ParsedTx),
      (∀ kg ∈ gs, kg.2 = pref.filter (fun p => decide (normalizeKey p = kg.1))) →
      (∀ k, (∀ kg ∈ gs, kg.1 ≠ k) → pref.filter (fun p => decide (normalizeKey p = k)) = []) →
      List.Pairwise (fun a b => a.1 ≠ b.1) gs →
      ∀ kg ∈ buildGroupsFrom gs l,
        kg.2 = (pref ++ l).filter (fun p => decide (normalizeKey p = kg.1)) := by
  intro l
  induction l with
  | nil =>
    intro gs pref hA _ _ kg hm
    simp only [buildGroupsFrom] at hm
    simpa using hA kg hm
  | cons t ts ih =>
    intro gs pref hA hB hC kg hm
    simp only [buildGroupsFrom] at hm
    have hA2 := addToGroups_groups t pref (normalizeKey t) rfl gs hA (hB _) hC
    have hC2 := addToGroups_keys_nodup (normalizeKey t) t gs hC
    have hB2 : ∀ k, (∀ kg2 ∈ addToGroups (normalizeKey t) t gs, kg2.1 ≠ k) →
        (pref ++ [t]).filter (fun p => decide (normalizeKey p = k)) = [] := by
      intro k hall
      have hk0 : normalizeKey t ≠ k := by
        obtain ⟨kg2, hm2, he⟩ := exists_key_addToGroups (normalizeKey t) t gs
        rw [← he]
        exact hall kg2 hm2
      have hgs : ∀ kg2 ∈ gs, kg2.1 ≠ k := by
        intro kg2 hm2
        obtain ⟨kg3, hm3, he⟩ := keys_sub_addToGroups (normalizeKey t) t gs kg2 hm2
        rw [← he]
        exact hall kg3 hm3
      simp only [List.filter_append, hB k hgs, List.nil_append]
      simp [hk0]
    have hres := ih (addToGroups (normalizeKey t) t gs) (pref ++ [t]) hA2 hB2 hC2 kg hm
    simpa [List.append_assoc] using hres

theorem buildGroups_spec (l : List ParsedTx) :
    ∀ kg ∈ buildGroups l, kg.2 = l.filter (fun p => decide (normalizeKey p = kg.1)) := by
  intro kg hm
  have hres := buildGroupsFrom_spec l [] [] (by simp) (by simp) (by simp) kg hm
  simpa using hres

theorem mem_foldl_groupAccept (x : Int × ℚ × List Char) :
    ∀ (gs : List ((List Char × Int) × List ParsedTx)) (acc : List (Int × ℚ × List Char)),
      x ∈ gs.foldl (fun acc kg => acc ++ groupAccept kg.2) acc ↔
        x ∈ acc ∨ ∃ kg ∈ gs, x ∈ groupAccept kg.2 := by
  intro gs
  induction gs with
  | nil => intro acc; simp
  | cons e rest ih =>
    intro acc
    simp only [List.foldl_cons, ih, List.mem_append]
    constructor
    · rintro ((h | h) | ⟨kg, hm, hx⟩)
      · exact Or.inl h
      · exact Or.inr ⟨e, List.mem_cons_self _ _, h⟩
      · exact Or.inr ⟨kg, List.mem_cons_of_mem _ hm, hx⟩
    · rintro (h | ⟨kg, hm, hx⟩)
      · exact Or.inl (Or.inl h)
      · rcases List.mem_cons.mp hm with rfl | hm2
        · exact Or.inl (Or.inr hx)
        · exact Or.inr ⟨kg, hm2, hx⟩

theorem mem_groupAccept (x : Int × ℚ × List Char) (g : List ParsedTx) :
    x ∈ groupAccept g ↔
      survivesSorted (sortByB pLe g) = true ∧ ∃ m ∈ sortByB pLe g, tripleP m = x := by
  simp only [groupAccept]
  split
  · rename_i h
    simp [h, List.mem_map]
  · rename_i h
    simp [h]

theorem mem_detectRecurring (tk : Int × ℚ × List Char) (l : List ParsedTx) :
    tk ∈ detectRecurringPayments l ↔
      ∃ kg ∈ buildGroups (l.filter (fun p => decide (p.type = TxType.debit))),
        survivesSorted (sortByB pLe kg.2) = true ∧ ∃ m ∈ sortByB pLe kg.2, tripleP m = tk := by
  simp only [detectRecurringPayments]
  rw [mem_foldl_groupAccept]
  simp only [List.not_mem_nil, false_or]
  constructor
  · rintro ⟨kg, hm, hx⟩
    exact ⟨kg, hm, (mem_groupAccept tk kg.2).mp hx⟩
  · rintro ⟨kg, hm, hs, hmm⟩
    exact ⟨kg, hm, (mem_groupAccept tk kg.2).mpr ⟨hs, hmm⟩⟩

theorem parsedOf_type (ts : List Tx) : ∀ p ∈ parsedOf ts, p.type = TxType.debit := by
  intro p hp
  simp only [parsedOf, List.mem_map, List.mem_filter] at hp
  obtain ⟨t, ⟨_, ht⟩, rfl⟩ := hp
  simpa using ht

theorem parsedOf_filter_debit (ts : List Tx) :
    (parsedOf ts).filter (fun p => decide (p.type = TxType.debit)) = parsedOf ts :=
  List.filter_eq_self.mpr (fun p hp => by simp [parsedOf_type ts p hp])

theorem normalizeKey_congr (p q : ParsedTx) (hd : p.description = q.description)
    (ha : p.amount = q.amount) : normalizeKey p = normalizeKey q := by
  simp [normalizeKey, hd, ha]

theorem dayDiffQ_eq_abs (a b : ParsedTx) :
    dayDiffQ a b = qabs ((((b.date - a.date) : ℤ) : ℚ)) := by
  unfold dayDiffQ jsGetTime qfromInt
  rw [Rat.divInt_one, Rat.divInt_one]
  unfold qdiv
  rw [Rat.num_intCast, Rat.den_intCast, Rat.num_intCast, Rat.den_intCast]
  congr 1
  rw [show (b.date * 86400000 - a.date * 86400000) * ((1 : ℕ) : ℤ) =
      (b.date - a.date) * 86400000 by omega,
    show ((1 : ℕ) : ℤ) * 86400000 = 1 * 86400000 by omega]
  rw [Rat.divInt_mul_right (by norm_num : (86400000 : ℤ) ≠ 0)]
  rw [Rat.divInt_one]

theorem qabs_intCast (n : Int) : qabs ((n : ℚ)) = ((|n| : ℤ) : ℚ) := by
  unfold qabs
  rw [Rat.num_intCast, Rat.den_intCast]
  split
  · rename_i h
    rw [Nat.cast_one, Rat.divInt_one, abs_of_neg h]
  · rename_i h
    rw [abs_of_nonneg (by omega : (0 : ℤ) ≤ n)]

theorem dayDiffQ_comm (a b : ParsedTx) : dayDiffQ a b = dayDiffQ b a := by
  rw [dayDiffQ_eq_abs, dayDiffQ_eq_abs, qabs_intCast, qabs_intCast, abs_sub_comm]

theorem survivesSorted_pair_false_of_close (a b : ParsedTx)
    (h : dayDiffQ a b < 20) : survivesSorted [a, b] = false := by
  have h2 : qabs (qdiv (qfromInt (jsGetTime b.date - jsGetTime a.date)) (qfromInt 86400000)) <
      qfromInt 20 := by
    rw [show qfromInt 20 = (20 : ℚ) by decide]
    exact h
  unfold survivesSorted
  dsimp only
  rw [if_pos h2]
  split
  · rfl
  · rfl

theorem survivesSorted_pair_band (a b : ParsedTx)
    (h : survivesSorted [a, b] = true) : inBand (dayDiffQ a b) := by
  unfold survivesSorted at h
  dsimp only at h
  split at h
  · exact absurd h (by simp)
  · by_cases hdd : qabs (qdiv (qfromInt (jsGetTime b.date - jsGetTime a.date)) (qfromInt 86400000)) <
        qfromInt 20
    · rw [if_pos hdd] at h
      simp at h
    · rw [if_neg hdd] at h
      cases hband : ((decide
          (qfromInt 20 ≤ qabs (qdiv (qfromInt (jsGetTime b.date - jsGetTime a.date)) (qfromInt 86400000))) &&
        decide
          (qabs (qdiv (qfromInt (jsGetTime b.date - jsGetTime a.date)) (qfromInt 86400000)) ≤ qfromInt 40)) ||
        (decide
          (qfromInt 350 ≤ qabs (qdiv (qfromInt (jsGetTime b.date - jsGetTime a.date)) (qfromInt 86400000))) &&
        decide
          (qabs (qdiv (qfromInt (jsGetTime b.date - jsGetTime a.date)) (qfromInt 86400000)) ≤ qfromInt 380))) with
      | false =>
        rw [hband] at h
        simp at h
      | true =>
        have hband2 := hband
        simp only [Bool.or_eq_true, Bool.and_eq_true, decide_eq_true_eq] at hband2
        have e20 : qfromInt 20 = (20 : ℚ) := by decide
        have e40 : qfromInt 40 = (40 : ℚ) := by decide
        have e350 : qfromInt 350 = (350 : ℚ) := by decide
        have e380 : qfromInt 380 = (380 : ℚ) := by decide
        rw [e20, e40, e350, e380] at hband2
        exact hband2

theorem sortByB_pair {α : Type} (le : α → α → Bool) (a b : α) :
    sortByB le [a, b] = if le a b = true then [a, b] else [b, a] := by
  simp [sortByB, insertLe]

/-- Claim C5.  For a key whose debit group is exactly a pair `[p1, p2]`:
when their absolute day difference is under 20 days, `detectSubscriptions`
never flags a transaction carrying either member's identity triple (in
particular two same-merchant debits exactly 19 days apart are never flagged);
and a flagged transaction carrying either triple forces the interval into
the monthly band 20–40 days or the annual band 350–380 days inclusive. -/
theorem C5_pair_gates (ts : List Tx) (p1 p2 : ParsedTx)
    (hgrp : (parsedOf ts).filter (fun p => decide (normalizeKey p = normalizeKey p1)) = [p1, p2]) :
    (dayDiffQ p1 p2 < 20 →
      ∀ t ∈ detectSubscriptionsL ts, tripleT t = tripleP p1 ∨ tripleT t = tripleP p2 →
        t.isSubscription = false) ∧
    (∀ t ∈ detectSubscriptionsL ts, t.isSubscription = true →
      tripleT t = tripleP p1 ∨ tripleT t = tripleP p2 → inBand (dayDiffQ p1 p2)) := by
  have hk2 : normalizeKey p2 = normalizeKey p1 := by
    have hp2 : p2 ∈ (parsedOf ts).filter (fun p => decide (normalizeKey p = normalizeKey p1)) := by
      rw [hgrp]
      simp
    simpa using (List.mem_filter.mp hp2).2
  have hmain : ∀ tk, tk ∈ subKeysOf ts → tk = tripleP p1 ∨ tk = tripleP p2 →
      survivesSorted (sortByB pLe [p1, p2]) = true := by
    intro tk htk htrip
    rw [subKeysOf, mem_detectRecurring, parsedOf_filter_debit] at htk
    obtain ⟨kg, hkg, hs, m, hmem, htri⟩ := htk
    have hg := buildGroups_spec _ kg hkg
    have hm2 : m ∈ kg.2 := (mem_sortByB pLe m _).mp hmem
    have hkey_m : normalizeKey m = kg.1 := by
      rw [hg] at hm2
      simpa using (List.mem_filter.mp hm2).2
    have hkeym_p1 : normalizeKey m = normalizeKey p1 := by
      rcases htrip with he | he
      · rw [he] at htri
        have hd := congrArg (fun x => x.2.2) htri
        have ha := congrArg (fun x => x.2.1) htri
        exact normalizeKey_congr m p1 hd ha
      · rw [he] at htri
        have hd := congrArg (fun x => x.2.2) htri
        have ha := congrArg (fun x => x.2.1) htri
        exact (normalizeKey_congr m p2 hd ha).trans hk2
    have hkg1 : kg.1 = normalizeKey p1 := hkey_m.symm.trans hkeym_p1
    rw [hg, hkg1, hgrp] at hs
    exact hs
  have hsort : sortByB pLe [p1, p2] = if pLe p1 p2 = true then [p1, p2] else [p2, p1] :=
    sortByB_pair pLe p1 p2
  constructor
  · intro hdd t ht htrip
    simp only [detectSubscriptionsL, List.mem_map] at ht
    obtain ⟨t0, _, rfl⟩ := ht
    have htrip0 : tripleT t0 = tripleP p1 ∨ tripleT t0 = tripleP p2 := htrip
    have hkm : keyMem (tripleT t0) (subKeysOf ts) = false := by
      by_contra hkm
      have hkm2 : keyMem (tripleT t0) (subKeysOf ts) = true := by
        cases hb : keyMem (tripleT t0) (subKeysOf ts)
        · exact absurd hb hkm
        · rfl
      have hin := (keyMem_iff (tripleT t0) (subKeysOf ts)).mp hkm2
      have hsurv := hmain (tripleT t0) hin htrip0
      rw [hsort] at hsurv
      split at hsurv
      · rw [survivesSorted_pair_false_of_close p1 p2 hdd] at hsurv
        exact Bool.false_ne_true hsurv
      · rw [survivesSorted_pair_false_of_close p2 p1 (by rw [dayDiffQ_comm]; exact hdd)] at hsurv
        exact Bool.false_ne_true hsurv
    simp [setFlag, hkm]
  · intro t ht hflag htrip
    simp only [detectSubscriptionsL, List.mem_map] at ht
    obtain ⟨t0, _, rfl⟩ := ht
    have hflag2 : (decide (t0.type = TxType.debit) && keyMem (tripleT t0) (subKeysOf ts)) = true :=
      hflag
    simp only [Bool.and_eq_true] at hflag2
    have hkm : keyMem (tripleT t0) (subKeysOf ts) = true := hflag2.2
    have hin := (keyMem_iff (tripleT t0) (subKeysOf ts)).mp hkm
    have htrip0 : tripleT t0 = tripleP p1 ∨ tripleT t0 = tripleP p2 := htrip
    have hsurv := hmain (tripleT t0) hin htrip0
    rw [hsort] at hsurv
    split at hsurv
    · exact survivesSorted_pair_band p1 p2 hsurv
    · rw [dayDiffQ_comm]
      exact survivesSorted_pair_band p2 p1 hsurv

/-- Claim C5 witness: the two SPOTIFY debits exactly 19 days apart form a
pair group (their key group is exactly the pair), the day difference is
under 20, and the first member's transaction comes out unflagged. -/
theorem C5_witness :
    ((parsedOf tsNineteen).filter
        (fun p => decide (normalizeKey p = normalizeKey pSpot1)) = [pSpot1, pSpot2]) ∧
    dayDiffQ pSpot1 pSpot2 < 20 ∧
    (mkTx (daysFromCivil 2025 1 1) 10 "SPOTIFY" TxType.debit).isSubscription = false :=
  ⟨by decide, by decide,
    (C5_pair_gates tsNineteen pSpot1 pSpot2 (by decide)).1 (by decide)
      (mkTx (daysFromCivil 2025 1 1) 10 "SPOTIFY" TxType.debit) (by decide) (by decide)⟩

/-! ## CSV round-trip lemmas -/

theorem parseAux_escQ :
    ∀ (f rest cur : List Char) (acc : List (List Char)), rest.head? ≠ some '"' →
      parseCSVLineAux (escQ f ++ '"' :: rest) true cur acc =
        parseCSVLineAux rest false (cur ++ f) acc := by
  intro f
  induction f with
  | nil =>
    intro rest cur acc hr
    cases rest with
    | nil => simp [escQ, parseCSVLineAux]
    | cons c r =>
      have hc : c ≠ '"' := by
        intro h
        subst h
        exact hr rfl
      simp [escQ, parseCSVLineAux, hc]
  | cons c0 f ih =>
    intro rest cur acc hr
    by_cases hc0 : c0 = '"'
    · subst hc0
      simp only [escQ, List.cons_append]
      rw [show parseCSVLineAux ('"' :: '"' :: (escQ f ++ '"' :: rest)) true cur acc =
          parseCSVLineAux (escQ f ++ '"' :: rest) true (cur ++ ['"']) acc by
        simp [parseCSVLineAux]]
      rw [ih rest (cur ++ ['"']) acc hr]
      simp
    · rw [show escQ (c0 :: f) = c0 :: escQ f by simp [escQ, hc0]]
      rw [List.cons_append]
      rw [show parseCSVLineAux (c0 :: (escQ f ++ '"' :: rest)) true cur acc =
          parseCSVLineAux (escQ f ++ '"' :: rest) true (cur ++ [c0]) acc by
        simp [parseCSVLineAux, hc0]]
      rw [ih rest (cur ++ [c0]) acc hr]
      simp

theorem parse_encodeQuoted :
    ∀ (fs : List (List Char)) (f : List Char) (acc : List (List Char)),
      parseCSVLineAux (encodeQuoted (f :: fs)) false [] acc = acc ++ f :: fs := by
  intro fs
  induction fs with
  | nil =>
    intro f acc
    simp only [encodeQuoted]
    rw [show parseCSVLineAux ('"' :: (escQ f ++ ['"'])) false [] acc =
        parseCSVLineAux (escQ f ++ ['"']) true [] acc by simp [parseCSVLineAux]]
    rw [show (escQ f ++ ['"'] : List Char) = escQ f ++ '"' :: [] from rfl]
    rw [parseAux_escQ f [] [] acc (by simp)]
    simp [parseCSVLineAux]
  | cons g fs2 ih =>
    intro f acc
    simp only [encodeQuoted]
    rw [show parseCSVLineAux ('"' :: (escQ f ++ '"' :: ',' :: encodeQuoted (g :: fs2))) false [] acc =
        parseCSVLineAux (escQ f ++ '"' :: ',' :: encodeQuoted (g :: fs2)) true [] acc by
      simp [parseCSVLineAux]]
    rw [parseAux_escQ f (',' :: encodeQuoted (g :: fs2)) [] acc (by simp)]
    rw [show parseCSVLineAux (',' :: encodeQuoted (g :: fs2)) false ([] ++ f) acc =
        parseCSVLineAux (encodeQuoted (g :: fs2)) false [] (acc ++ [[] ++ f]) by
      simp [parseCSVLineAux]]
    rw [ih g (acc ++ [[] ++ f])]
    simp

theorem splitOnC_exists (sep : Char) :
    ∀ l : List Char, ∃ h t, splitOnC sep l = h :: t := by
  intro l
  cases l with
  | nil => exact ⟨[], [], rfl⟩
  | cons c r =>
    rcases he : splitOnC sep r with _ | ⟨h0, t0⟩
    · refine ⟨[c], [], ?_⟩
      simp [splitOnC, he]
    · by_cases hcm : c = sep
      · refine ⟨[], h0 :: t0, ?_⟩
        simp [splitOnC, he, hcm]
      · refine ⟨c :: h0, t0, ?_⟩
        simp [splitOnC, he, hcm]

theorem parseAux_noQuote :
    ∀ (l cur : List Char) (acc : List (List Char)), '"' ∉ l →
      parseCSVLineAux l false cur acc =
        acc ++ (match splitOnC ',' l with
                | [] => [cur]
                | h :: t => (cur ++ h) :: t) := by
  intro l
  induction l with
  | nil =>
    intro cur acc _
    simp [parseCSVLineAux, splitOnC]
  | cons c r ih =>
    intro cur acc h
    have hc : c ≠ '"' := fun he => h (he ▸ List.mem_cons_self c r)
    have hr : '"' ∉ r := fun hm => h (List.mem_cons_of_mem _ hm)
    obtain ⟨h0, t0, he⟩ := splitOnC_exists ',' r
    by_cases hcm : c = ','
    · subst hcm
      rw [show parseCSVLineAux (',' :: r) false cur acc =
          parseCSVLineAux r false [] (acc ++ [cur]) by simp [parseCSVLineAux]]
      rw [ih [] (acc ++ [cur]) hr]
      simp [splitOnC, he]
    · rw [show parseCSVLineAux (c :: r) false cur acc =
          parseCSVLineAux r false (cur ++ [c]) acc by simp [parseCSVLineAux, hc, hcm]]
      rw [ih (cur ++ [c]) acc hr]
      simp [splitOnC, he, hcm]

theorem splitOnC_length (sep : Char) :
    ∀ l : List Char, (splitOnC sep l).length = l.count sep + 1 := by
  intro l
  induction l with
  | nil => simp [splitOnC]
  | cons c r ih =>
    obtain ⟨h0, t0, he⟩ := splitOnC_exists sep r
    by_cases hcm : c = sep
    · subst hcm
      simp [splitOnC, he, List.count_cons] at ih ⊢
      omega
    · simp [splitOnC, he, List.count_cons, hcm] at ih ⊢
      omega

/-- Claim C8.  `parseCSVLine` implements conventional CSV quoting: the
all-quoted encoding of any nonempty field sequence (fields quoted, inner
quotes doubled, comma-joined) parses back to exactly that sequence — so
commas split only outside quoted spans and a doubled quote is one literal
quote — and a line without quote characters parses to exactly its comma
split, preserving empty fields, with one field more than its comma count. -/
theorem C8_csv_quoting :
    (∀ (f : List Char) (fs : List (List Char)),
      parseCSVLineL (encodeQuoted (f :: fs)) = f :: fs) ∧
    (∀ l : List Char, '"' ∉ l →
      parseCSVLineL l = splitOnC ',' l ∧ (parseCSVLineL l).length = l.count ',' + 1) := by
  constructor
  · intro f fs
    exact parse_encodeQuoted fs f []
  · intro l hl
    obtain ⟨h0, t0, he⟩ := splitOnC_exists ',' l
    have hp : parseCSVLineL l = splitOnC ',' l := by
      unfold parseCSVLineL
      rw [parseAux_noQuote l [] [] hl, he]
      simp
    refine ⟨hp, ?_⟩
    rw [hp, splitOnC_length]

/-- Claim C8 witness: a concrete quote-free line splits on its commas with
one more field than commas, and a concrete quoted encoding (with an embedded
quote and comma) round-trips. -/
theorem C8_witness :
    ('"' ∉ "a,,bc".data) ∧
    parseCSVLineL "a,,bc".data = splitOnC ',' "a,,bc".data ∧
    (parseCSVLineL "a,,bc".data).length = "a,,bc".data.count ',' + 1 ∧
    parseCSVLineL (encodeQuoted ["x\"y,z".data, "w".data]) = ["x\"y,z".data, "w".data] :=
  ⟨by decide, (C8_csv_quoting.2 "a,,bc".data (by decide)).1,
    (C8_csv_quoting.2 "a,,bc".data (by decide)).2,
    C8_csv_quoting.1 "x\"y,z".data ["w".data]⟩

end FinDash
